import Mathlib

/-
Verification development for the Sales_Automation_MVP repository.

The development shallowly embeds the scraper pipeline
(src/email_automation_mvp/scraper.py) and the contact analyzer
(src/email_automation_mvp/page_analyzer.py): strings are lists of
characters, fetched pages are abstract documents carrying exactly the
data the code extracts from HTML (anchors, visible text, cloudflare
spans, sitemap loc entries, the raw text), and the network is a finite
map from URL strings to fetch outcomes.  Python string primitives used
by the code (lower, strip, replace, split, startswith, endswith, find,
int(s, 16), chr, xor on int) are modelled explicitly.  External
collaborators (document text extraction, spaCy person extraction) are
parameters, following the repository's own interface boundaries.
Where Python iterates over a set, the model fixes insertion order;
where pandas sorts, the model fixes a stable sort: the proved
statements do not depend on these orders.
-/

namespace EmailMvp

/-- Strings are modelled as lists of characters. -/
abbrev Str := List Char

/-- Coerce a Lean string literal into the model's string type. -/
def s2l (s : String) : Str := s.data

/-- The whitespace class of Python's str.strip, str.split and regex \s
restricted to ASCII. -/
def isPySpace (c : Char) : Bool :=
  c = ' ' || c = '\t' || c = '\n' || c = '\x0d' || c = '\x0b' || c = '\x0c'

/-- Python str.lower, on the ASCII range. -/
def pyLower (s : Str) : Str := s.map Char.toLower

/-- Python str.strip with no argument: drop whitespace on both ends. -/
def pyStrip (s : Str) : Str :=
  ((s.dropWhile isPySpace).reverse.dropWhile isPySpace).reverse

/-- Python str.startswith for a single pattern. -/
def pyStartsWith (s pat : Str) : Bool := pat.isPrefixOf s

/-- Python str.endswith for a single pattern. -/
def pyEndsWith (s pat : Str) : Bool := pat.isSuffixOf s

/-- Python `pat in s`: substring containment. -/
def isSubstr (pat s : Str) : Bool := s.tails.any (fun t => pat.isPrefixOf t)

/-- Recursion core of pyReplace.  Every step consumes at least one
character of s, so fuel equal to the length of s is exact: the fuel-0
case is reached only with the empty string (the fuel stays an upper
bound of the remaining length at every call). -/
def pyReplaceGo (pat rep : Str) : Nat → Str → Str
  | 0, s => s
  | _ + 1, [] => []
  | fuel + 1, c :: cs =>
    if pat ≠ [] ∧ pat.isPrefixOf (c :: cs) then
      rep ++ pyReplaceGo pat rep fuel ((c :: cs).drop pat.length)
    else c :: pyReplaceGo pat rep fuel cs

/-- Python str.replace(pat, rep): replace every non-overlapping
occurrence, scanning left to right. -/
def pyReplace (s pat rep : Str) : Str := pyReplaceGo pat rep s.length s

/-- Python s.split(c)[0]: the part of the string before the first
occurrence of the character. -/
def beforeChar (c : Char) (s : Str) : Str := s.takeWhile (fun x => x ≠ c)

/-- Python s.split(sep, 1)[1] for a one-character separator, assuming the
separator occurs: everything after its first occurrence. -/
def afterChar (c : Char) (s : Str) : Str := (s.dropWhile (fun x => x ≠ c)).drop 1

/-- Python s.split('#')[-1]: the part after the last '#', or the whole
string when there is none. -/
def afterLastHash (s : Str) : Str :=
  ((s.reverse.takeWhile (fun x => x ≠ '#'))).reverse

/-- Python s.split('\n'), used to model str.splitlines (a trailing
newline yields one extra empty line here, which no caller observes:
empty lines match no directive). -/
def splitNl (s : Str) : List Str :=
  match s with
  | [] => [[]]
  | c :: cs =>
    match splitNl cs with
    | [] => [[c]]
    | h :: t => if c = '\n' then [] :: h :: t else (c :: h) :: t

/-- Python hay.find(needle): index of the first occurrence, or -1. -/
def pyFind (hay needle : Str) : Int :=
  if needle.isPrefixOf hay then 0
  else
    match hay with
    | [] => -1
    | _ :: t =>
      match pyFind t needle with
      | -1 => -1
      | i => i + 1

/-- Python ", ".join and friends. -/
def joinSep (sep : Str) (l : List Str) : Str :=
  match l with
  | [] => []
  | h :: t => h ++ (t.map (fun x => sep ++ x)).flatten

/-- Insertion into a Python set, modelled with insertion order retained. -/
def sinsert (x : Str) (l : List Str) : List Str :=
  if x ∈ l then l else l ++ [x]

/-- set.update / repeated set.add over a list. -/
def sunion (l : List Str) (xs : List Str) : List Str :=
  xs.foldl (fun acc x => sinsert x acc) l

/-- First-occurrence deduplication: the insertion-order model of
list(set(xs)) when xs is consumed left to right. -/
def dedupFirst (xs : List Str) : List Str := sunion [] xs

/-- Lexicographic comparison of strings by code point, as Python's
`sorted` on str uses. -/
def strLt (a b : Str) : Bool :=
  match a, b with
  | [], [] => false
  | [], _ :: _ => true
  | _ :: _, [] => false
  | x :: xs, y :: ys => x < y || (x = y && strLt xs ys)

/-- Stable insertion for `sortStr`. -/
def strIns (x : Str) (l : List Str) : List Str :=
  match l with
  | [] => [x]
  | y :: ys => if strLt x y then x :: y :: ys else y :: strIns x ys

/-- Python sorted() on a list of strings. -/
def sortStr (l : List Str) : List Str := l.foldr strIns []

/-- Hexadecimal digit value, as accepted by Python int(s, 16). -/
def hexDigitVal (c : Char) : Option Nat :=
  if '0' ≤ c ∧ c ≤ '9' then some (c.toNat - 48)
  else if 'a' ≤ c ∧ c ≤ 'f' then some (c.toNat - 87)
  else if 'A' ≤ c ∧ c ≤ 'F' then some (c.toNat - 55)
  else none

/-- Remaining digits of a hex numeral: Python allows a single underscore
between two digits. -/
def hexRest (acc : Nat) : Str → Option Nat
  | [] => some acc
  | '_' :: c :: cs =>
    match hexDigitVal c with
    | some d => hexRest (16 * acc + d) cs
    | none => none
  | c :: cs =>
    match hexDigitVal c with
    | some d => hexRest (16 * acc + d) cs
    | none => none

/-- A nonempty run of hex digits with optional single underscores. -/
def hexNum : Str → Option Nat
  | [] => none
  | c :: cs =>
    match hexDigitVal c with
    | some d => hexRest d cs
    | none => none

/-- The numeral after an 0x prefix: one underscore may follow the
prefix itself. -/
def afterHexMark : Str → Option Nat
  | '_' :: rest => hexNum rest
  | rest => hexNum rest

/-- The unsigned body of a base-16 numeral: an optional 0x/0X prefix
followed by the digits. -/
def hexBody : Str → Option Nat
  | '0' :: 'x' :: rest => afterHexMark rest
  | '0' :: 'X' :: rest => afterHexMark rest
  | l => hexNum l

/-- Python int(s, 16): surrounding whitespace, an optional sign, an
optional 0x prefix, digits with single underscores; anything else raises
ValueError, modelled as none.  (Non-ASCII digits and non-ASCII
whitespace, which CPython also accepts, are outside the model.) -/
def pyIntHex (s : Str) : Option Int :=
  let t := pyStrip s
  match t with
  | '+' :: rest => (hexBody rest).map (fun n => (n : Int))
  | '-' :: rest => (hexBody rest).map (fun n => -(n : Int))
  | rest => (hexBody rest).map (fun n => (n : Int))

/-- Python ^ on unbounded integers: two's-complement xor extended to
negative numbers. -/
def pyXor : Int → Int → Int
  | Int.ofNat m, Int.ofNat n => Int.ofNat (m ^^^ n)
  | Int.ofNat m, Int.negSucc n => Int.negSucc (m ^^^ n)
  | Int.negSucc m, Int.ofNat n => Int.negSucc (m ^^^ n)
  | Int.negSucc m, Int.negSucc n => Int.ofNat (m ^^^ n)

/-- The two-character slices encoded_string[i:i+2] for i = 2, 4, ...;
a trailing odd character yields a one-character slice, exactly as the
Python slicing does. -/
def chunks2 : Str → List Str
  | [] => []
  | [a] => [[a]]
  | a :: b :: rest => [a, b] :: chunks2 rest

/-- chr(int(chunk, 16) ^ r) for each chunk; chr raises ValueError
outside [0, 0x110000), which the decoder's except clause turns into
None.  Decoded code points are returned as naturals. -/
def decodeChunks (r : Int) : List Str → Option (List Nat)
  | [] => some []
  | c :: cs =>
    (pyIntHex c).bind (fun v =>
      let x := pyXor v r
      if 0 ≤ x ∧ x < 1114112 then
        (decodeChunks r cs).map (fun l => x.toNat :: l)
      else none)

/-- scraper.decode_cf_email: the first two characters parse as the hex
key byte, every following two-character slice is xor-decoded with it;
ValueError or TypeError (a None argument) yields None. -/
def decode_cf_email (payload : Option Str) : Option (List Nat) :=
  payload.bind (fun s =>
    (pyIntHex (s.take 2)).bind (fun r => decodeChunks r (chunks2 (s.drop 2))))

/-- Lowercase hex digit character for the round-trip payload. -/
def hexChar (n : Nat) : Char :=
  if n < 10 then Char.ofNat (48 + n) else Char.ofNat (87 + n)

/-- A byte as two lowercase hex digits. -/
def toHex2 (n : Nat) : Str := [hexChar (n / 16 % 16), hexChar (n % 16)]

/-- The obfuscated payload for a key byte and an email given as a list
of byte values: the key as two hex digits followed by each byte xored
with the key as a hex pair (the encoding scheme the spec's round-trip
property describes). -/
def cfEncode (key : Nat) (email : List Nat) : Str :=
  toHex2 key ++ (email.map (fun b => toHex2 (b ^^^ key))).flatten

/-- The character class [a-zA-Z0-9._%+-] of EMAIL_REGEX's local part. -/
def isLocalChar (c : Char) : Bool :=
  c.isAlphanum || c = '.' || c = '_' || c = '%' || c = '+' || c = '-'

/-- The character class [a-zA-Z0-9.-] of EMAIL_REGEX's domain part. -/
def isDomainChar (c : Char) : Bool := c.isAlphanum || c = '.' || c = '-'

/-- The class [a-zA-Z] of EMAIL_REGEX's final label. -/
def isTldChar (c : Char) : Bool := c.isAlpha

/-- Backtracking step for EMAIL_REGEX at a fixed position: the greedy
domain run shrinks from the right until a literal dot follows and at
least two letters follow the dot, exactly the order a regex engine
tries. j is the number of characters [a-zA-Z0-9.-]+ keeps. -/
def tryDotSplit (a rest2 : Str) : Nat → Option Str
  | 0 => none
  | j + 1 =>
    match rest2.drop (j + 1) with
    | '.' :: after =>
      let cpart := after.takeWhile isTldChar
      if cpart.length ≥ 2 then
        some (a ++ '@' :: (rest2.take (j + 1)) ++ '.' :: cpart)
      else tryDotSplit a rest2 j
    | _ => tryDotSplit a rest2 j

/-- The match of EMAIL_REGEX anchored at the head of s, with the
engine's greedy-then-backtrack semantics; none when no match starts
here.  The local-part class excludes @, so only its maximal run can
precede the @. -/
def matchEmailAt (s : Str) : Option Str :=
  let a := s.takeWhile isLocalChar
  if a.isEmpty then none
  else
    match s.drop a.length with
    | '@' :: rest2 => tryDotSplit a rest2 (rest2.takeWhile isDomainChar).length
    | _ => none

/-- Recursion core of findallEmails: on a match advance past it (a
match is never empty; the max guards the bound syntactically), else
advance one character.  Each step consumes at least one character, so
fuel equal to the string length is exact. -/
def findallGo : Nat → Str → List Str
  | 0, _ => []
  | _ + 1, [] => []
  | fuel + 1, c :: cs =>
    match matchEmailAt (c :: cs) with
    | some m => m :: findallGo fuel ((c :: cs).drop (max m.length 1))
    | none => findallGo fuel cs

/-- re.findall(EMAIL_REGEX, s): leftmost non-overlapping matches. -/
def findallEmails (s : Str) : List Str := findallGo s.length s

/-- Tokens of the simple substitution patterns in _deobfuscate_text:
maximal whitespace runs (optionally required nonempty) and literals.
The classes never overlap a following literal, so matching needs no
backtracking. -/
inductive PatTok
  | ws (min1 : Bool)
  | lit (l : Str)

/-- Match a token pattern at the head of s, returning the rest. -/
def matchToks : List PatTok → Str → Option Str
  | [], s => some s
  | PatTok.ws min1 :: rest, s =>
    let sp := s.takeWhile isPySpace
    if min1 && sp.isEmpty then none
    else matchToks rest (s.drop sp.length)
  | PatTok.lit l :: rest, s =>
    if l.isPrefixOf s then matchToks rest (s.drop l.length) else none

/-- Recursion core of subAll: on a match emit the replacement and skip
the consumed characters (every pattern used contains a literal, so a
match consumes at least one; the max guards it syntactically), else
advance one character.  Fuel equal to the string length is exact. -/
def subAllGo (toks : List PatTok) (rep : Str) : Nat → Str → Str
  | 0, s => s
  | _ + 1, [] => []
  | fuel + 1, c :: cs =>
    match matchToks toks (c :: cs) with
    | some rest =>
      rep ++ subAllGo toks rep fuel
        ((c :: cs).drop (max ((c :: cs).length - rest.length) 1))
    | none => c :: subAllGo toks rep fuel cs

/-- re.sub for one of those patterns: scan left to right, replace every
non-overlapping match. -/
def subAll (toks : List PatTok) (rep : Str) (s : Str) : Str :=
  subAllGo toks rep s.length s

/-- Pattern \s*\[\s*at\s*\]\s* . -/
def patBrAt : List PatTok :=
  [.ws false, .lit (s2l ("[")), .ws false, .lit (s2l ("at")), .ws false,
   .lit (s2l ("]")), .ws false]

/-- Pattern \s*\[\s*dot\s*\]\s* . -/
def patBrDot : List PatTok :=
  [.ws false, .lit (s2l ("[")), .ws false, .lit (s2l ("dot")), .ws false,
   .lit (s2l ("]")), .ws false]

/-- Pattern \s*\(\s*at\s*\)\s* . -/
def patPaAt : List PatTok :=
  [.ws false, .lit (s2l ("(")), .ws false, .lit (s2l ("at")), .ws false,
   .lit (s2l (")")), .ws false]

/-- Pattern \s*\(\s*dot\s*\)\s* . -/
def patPaDot : List PatTok :=
  [.ws false, .lit (s2l ("(")), .ws false, .lit (s2l ("dot")), .ws false,
   .lit (s2l (")")), .ws false]

/-- Pattern \s+at\s+ . -/
def patSpAt : List PatTok := [.ws true, .lit (s2l ("at")), .ws true]

/-- Pattern \s+dot\s+ . -/
def patSpDot : List PatTok := [.ws true, .lit (s2l ("dot")), .ws true]

/-- Pattern \s*@\s* . -/
def patAtSp : List PatTok := [.ws false, .lit (s2l ("@")), .ws false]

/-- page_analyzer._deobfuscate_text: lowercase, then the seven
substitutions in source order. -/
def deobfuscate_text (t : Str) : Str :=
  let t1 := pyLower t
  let t2 := subAll patBrAt (s2l ("@")) t1
  let t3 := subAll patBrDot (s2l (".")) t2
  let t4 := subAll patPaAt (s2l ("@")) t3
  let t5 := subAll patPaDot (s2l (".")) t4
  let t6 := subAll patSpAt (s2l ("@")) t5
  let t7 := subAll patSpDot (s2l (".")) t6
  subAll patAtSp (s2l ("@")) t7

/-- The image/script/style extensions both email extractors exclude
(scraper.py line 42 and page_analyzer.py line 39): exactly these six. -/
def assetExts : List Str :=
  [s2l (".png"), s2l (".jpg"), s2l (".gif"), s2l (".jpeg"),
   s2l (".css"), s2l (".js")]

/-- email.endswith(('.png', '.jpg', '.gif', '.jpeg', '.css', '.js')). -/
def endsWithAsset (e : Str) : Bool := assetExts.any (fun ext => pyEndsWith e ext)

/-- The regex-extraction stage of parse_html_for_emails_and_links:
findall over the visible text, drop asset-extension matches, collect
into a set (insertion order). -/
def emailsFromText (t : Str) : List Str :=
  dedupFirst ((findallEmails t).filter (fun e => !endsWithAsset e))

/-- page_analyzer._extract_emails_from_text: deobfuscate, findall,
filter asset extensions, deduplicate. -/
def extract_emails_from_text (t : Str) : List Str :=
  dedupFirst ((findallEmails (deobfuscate_text t)).filter (fun e => !endsWithAsset e))

/-- Characters urllib allows inside a scheme after the initial letter. -/
def isSchemeChar (c : Char) : Bool :=
  c.isAlphanum || c = '+' || c = '-' || c = '.'

/-- urlparse's scheme recognition: (lowercased scheme, rest after the
colon), or none when the part before the first colon is not a valid
scheme. -/
def schemeSplit (u : Str) : Option (Str × Str) :=
  let pre := u.takeWhile (fun c => c ≠ ':')
  if pre.length < u.length ∧ pre ≠ [] ∧
      (pre.headD ' ').isAlpha ∧ pre.all isSchemeChar then
    some (pyLower pre, u.drop (pre.length + 1))
  else none

/-- urlparse(u).scheme. -/
def schemeOf (u : Str) : Str :=
  match schemeSplit u with
  | some p => p.1
  | none => []

/-- urlparse(u).netloc: present only after //, up to /, ? or #. -/
def netlocOf (u : Str) : Str :=
  let rest := match schemeSplit u with | some p => p.2 | none => u
  if pyStartsWith rest (s2l ("//")) then
    (rest.drop 2).takeWhile (fun c => c ≠ '/' ∧ c ≠ '?' ∧ c ≠ '#')
  else []

/-- urlparse(u).path for the http(s) shapes the crawler handles. -/
def pathOf (u : Str) : Str :=
  let rest := match schemeSplit u with | some p => p.2 | none => u
  let rest2 :=
    if pyStartsWith rest (s2l ("//")) then
      (rest.drop 2).dropWhile (fun c => c ≠ '/' ∧ c ≠ '?' ∧ c ≠ '#')
    else rest
  rest2.takeWhile (fun c => c ≠ '?' ∧ c ≠ '#')

/-- scheme://netloc of a base URL, for resolution. -/
def schemeRoot (u : Str) : Str :=
  schemeOf u ++ s2l ("://") ++ netlocOf u

/-- The path's directory: up to and including the last slash, or a
single slash when the path has none. -/
def dirOf (p : Str) : Str :=
  let r := p.reverse.dropWhile (fun c => c ≠ '/')
  if r = [] then ['/'] else r.reverse

/-- urljoin(base, ref) on the reference shapes the crawler meets: empty
references, absolute URIs with a scheme, network-path, absolute-path
and plain relative references.  (Dot-segment normalisation,
query-only references and the same-scheme relative form are outside
the modelled subset; no proved statement depends on them.) -/
def pyUrljoin (base ref : Str) : Str :=
  if ref = [] then base
  else if (schemeSplit ref).isSome then ref
  else if pyStartsWith ref (s2l ("//")) then schemeOf base ++ ':' :: ref
  else if pyStartsWith ref (s2l ("/")) then schemeRoot base ++ ref
  else schemeRoot base ++ dirOf (pathOf base) ++ ref

/-- An anchor tag with an href attribute: soup.find_all('a', href=True)
yields these; text is get_text() of the tag. -/
structure Anchor where
  href : Str
  text : Str

/-- A fetched document, carrying exactly the structure the code reads
out of the response: the raw content string (for the email-protection
marker and robots.txt lines), the anchor tags, the visible text
(get_text; the get_text(" ", strip=True) variant is abstracted by the
same field), the span.__cf_email__ data-cfemail attributes, and the
loc entries of nested sitemap tags and of url tags when parsed as
sitemap XML. -/
structure Doc where
  raw : Str := []
  anchors : List Anchor := []
  text : Str := []
  cfSpans : List (Option Str) := []
  sitemapLocs : List Str := []
  urlLocs : List Str := []

/-- Outcome of requesting a URL: a 200 response with a document, a
non-200 response that still has a body, or a network error /
timeout. -/
inductive FetchRes
  | good (d : Doc)
  | bad (d : Doc)
  | down

/-- The network: a finite map from URL strings to outcomes; unknown
URLs are unreachable. -/
structure World where
  pages : List (Str × FetchRes)

/-- Look up a URL in the world. -/
def wFetch (w : World) (u : Str) : FetchRes :=
  match w.pages.lookup u with
  | some r => r
  | none => FetchRes.down

/-- requests.Session().get followed by raise_for_status: non-200 and
network errors both raise, modelled as none. -/
def requestsGet (w : World) (u : Str) : Option Doc :=
  match wFetch w u with
  | FetchRes.good d => some d
  | _ => none

/-- page.goto in Playwright: raises only on network errors; a non-200
response still yields page.content(). -/
def pwGoto (w : World) (u : Str) : Option Doc :=
  match wFetch w u with
  | FetchRes.good d => some d
  | FetchRes.bad d => some d
  | FetchRes.down => none

/-- One page fetch with the strategy the mode detection selected. -/
def fetchPage (w : World) (usePw : Bool) (u : Str) : Option Doc :=
  if usePw then pwGoto w u else requestsGet w u

/-- Result triple of parse_html_for_emails_and_links. -/
structure ParseOut where
  emails : List Str
  pageLinks : List Str
  fileLinks : List Str

/-- The document extensions of scraper.py line 37. -/
def fileExtensions : List Str :=
  [s2l (".pdf"), s2l (".docx"), s2l (".ppt"), s2l (".pptx")]

/-- Cloudflare-protected emails from anchors whose href contains
/cdn-cgi/l/email-protection: decode the part after the last #; the
truthiness test if decoded_email skips both a None and an empty
decode.  Decoded code points are rendered with Char.ofNat (the model
does not distinguish surrogate code points, which chr would allow). -/
def cfAnchorEmails (anchors : List Anchor) (acc : List Str) : List Str :=
  anchors.foldl (fun acc a =>
    if isSubstr (s2l ("/cdn-cgi/l/email-protection")) a.href then
      match decode_cf_email (some (afterLastHash a.href)) with
      | some cps => if cps = [] then acc else sinsert (cps.map Char.ofNat) acc
      | none => acc
    else acc) acc

/-- Cloudflare-protected emails from span.__cf_email__ data-cfemail
attributes; an absent or empty attribute is skipped, and the
truthiness test if decoded_email skips both a None and an empty
decode. -/
def cfSpanEmails (spans : List (Option Str)) (acc : List Str) : List Str :=
  spans.foldl (fun acc sp =>
    match sp with
    | some enc =>
      if enc ≠ [] then
        match decode_cf_email (some enc) with
        | some cps => if cps = [] then acc else sinsert (cps.map Char.ofNat) acc
        | none => acc
      else acc
    | none => acc) acc

/-- One anchor of parse_html_for_emails_and_links step 3: resolve the
href, strip the fragment, require an http prefix, then classify as a
document link or a same-netloc page link. -/
def linkStep (url base_domain : Str) (st : List Str × List Str)
    (a : Anchor) : List Str × List Str :=
  let link := beforeChar '#' (pyUrljoin url a.href)
  if !pyStartsWith link (s2l ("http")) then st
  else if fileExtensions.any (fun ext => pyEndsWith (pyLower link) ext) then
    (st.1, sinsert link st.2)
  else if netlocOf link = base_domain then (sinsert link st.1, st.2)
  else st

/-- Link classification of parse_html_for_emails_and_links step 3. -/
def linkClassify (url base_domain : Str) (anchors : List Anchor) :
    List Str × List Str :=
  anchors.foldl (linkStep url base_domain) ([], [])

/-- scraper.parse_html_for_emails_and_links. -/
def parse_html_for_emails_and_links (d : Doc) (url : Str) : ParseOut :=
  let base_domain := netlocOf url
  let e1 := emailsFromText d.text
  let e2 := cfAnchorEmails d.anchors e1
  let e3 := cfSpanEmails d.cfSpans e2
  let pf := linkClassify url base_domain d.anchors
  ⟨e3, pf.1, pf.2⟩

/-- The contact-page keyword list of find_priority_links, verbatim
(including the mojibake spelling on the German entry). -/
def priorityKeywords : List Str :=
  [s2l ("contact"), s2l ("about"), s2l ("team"), s2l ("career"),
   s2l ("jobs"), s2l ("support"), s2l ("help"),
   s2l ("press"), s2l ("media"), s2l ("news"), s2l ("impressum"),
   s2l ("legal"), s2l ("privacy"),
   s2l ("contact-us"), s2l ("about-us"), s2l ("our-team"),
   s2l ("get-in-touch"),
   s2l ("contacto"), s2l ("quienes-somos"), s2l ("equipo"),
   s2l ("carrera"),
   s2l ("kontakt"), s2l ("ueber-uns"), s2l ("Ã¼ber-uns"),
   s2l ("contato"), s2l ("sobre"),
   s2l ("contactez-nous"), s2l ("a-propos"), s2l ("equipe")]

/-- scraper.find_priority_links: anchors whose lowered href or text
contains a keyword, resolved against the base URL, kept when the
scheme is http or https; returned as a set in insertion order. -/
def find_priority_links (d : Doc) (base_url : Str) : List Str :=
  d.anchors.foldl (fun acc a =>
    let href := pyLower a.href
    let ltext := pyLower a.text
    if priorityKeywords.any (fun k => isSubstr k href) ||
        priorityKeywords.any (fun k => isSubstr k ltext) then
      let full := pyUrljoin base_url a.href
      if schemeOf full = s2l ("http") ∨ schemeOf full = s2l ("https") then
        sinsert full acc
      else acc
    else acc) []

/-- The Sitemap: directives of a robots.txt body: lines whose lowered
form starts with the directive, split at the first colon, stripped,
collected as a set. -/
def robotsDirectives (raw : Str) : List Str :=
  (splitNl raw).foldl (fun acc line =>
    if pyStartsWith (pyLower line) (s2l ("sitemap:")) then
      sinsert (pyStrip (afterChar ':' line)) acc
    else acc) []

/-- Result of get_sitemap_urls: the collected page URLs, the sitemap
URLs parsed in order, and whether the worklist was exhausted within
the supplied fuel. -/
structure SMOut where
  urls : List Str
  parsedTrace : List Str
  finished : Bool

/-- The while loop of get_sitemap_urls: pop a sitemap URL, skip it if
already parsed, otherwise mark it parsed and fetch it; a 200 response
with nested sitemap tags feeds the worklist, one with url tags feeds
the result set, and a non-200 response or an exception contributes
nothing.  Fuel only bounds the recursion; sitemapFuel is proved
sufficient below. -/
def sitemapLoop (w : World) :
    Nat → List Str → List Str → List Str → List Str → SMOut
  | 0, worklist, _, acc, trace => ⟨acc, trace, worklist.isEmpty⟩
  | _ + 1, [], _, acc, trace => ⟨acc, trace, true⟩
  | fuel + 1, u :: rest, parsed, acc, trace =>
    if u ∈ parsed then sitemapLoop w fuel rest parsed acc trace
    else
      match wFetch w u with
      | FetchRes.good d =>
        if d.sitemapLocs ≠ [] then
          sitemapLoop w fuel (sunion rest (d.sitemapLocs.map pyStrip))
            (u :: parsed) acc (trace ++ [u])
        else
          sitemapLoop w fuel rest (u :: parsed)
            (sunion acc (d.urlLocs.map pyStrip)) (trace ++ [u])
      | FetchRes.bad _ => sitemapLoop w fuel rest (u :: parsed) acc (trace ++ [u])
      | FetchRes.down => sitemapLoop w fuel rest (u :: parsed) acc (trace ++ [u])

/-- Every stripped nested-sitemap loc any 200 response in the world can
contribute to the worklist. -/
def allIndexLocs (w : World) : List Str :=
  w.pages.foldr (fun p acc =>
    match p.2 with
    | FetchRes.good d => d.sitemapLocs.map pyStrip ++ acc
    | _ => acc) []

/-- Fuel that always suffices for sitemapLoop (sufficiency is a theorem
below): every URL the loop meets lies in the initial worklist or among
allIndexLocs, and each parse consumes one of them for good. -/
def sitemapFuel (w : World) (init : List Str) : Nat :=
  init.length + (init.length + (allIndexLocs w).length + 1) *
    ((allIndexLocs w).length + 1)

/-- scraper.get_sitemap_urls: read Sitemap: directives from robots.txt
(falling back to /sitemap.xml), then resolve sitemap indexes
iteratively. -/
def get_sitemap_urls (w : World) (base_url : Str) : SMOut :=
  let robots_url := pyUrljoin base_url (s2l ("/robots.txt"))
  let dirs :=
    match wFetch w robots_url with
    | FetchRes.good d => robotsDirectives d.raw
    | _ => []
  let init := if dirs = [] then [pyUrljoin base_url (s2l ("/sitemap.xml"))] else dirs
  sitemapLoop w (sitemapFuel w init) init [] [] []

/-- A contact-candidate confidence level. -/
inductive Conf
  | high
  | medium
  | low
deriving DecidableEq, Repr

/-- A person the NER collaborator reports. -/
structure Person where
  name : Str
  title : Str

/-- A contact candidate as page_analyzer builds them. -/
structure Contact where
  email : Str
  name : Str
  title : Str
  source : Str
  confidence : Conf
deriving DecidableEq, Repr

/-- page_analyzer.find_general_contacts.  The spaCy-based
_extract_names_and_titles is the injected ner parameter (the
repository treats name extraction as a collaborator; with the model
missing it returns []).  Part 1 pairs each mailto anchor with its
anchor text at high confidence when the text is nonempty and free of
@; part 2 scans the remaining page emails, pairing each with the
first person found in a ±150-character window (medium) or none (low).
The source's except branch is unreachable here: str.find returns -1
rather than raising. -/
def find_general_contacts (ner : Str → List Person) (d : Doc) (url : Str) :
    List Contact :=
  let step1 := d.anchors.foldl (fun (st : List Contact × List Str) a =>
    if pyStartsWith a.href (s2l ("mailto:")) then
      let email := beforeChar '?' (pyReplace a.href (s2l ("mailto:")) [])
      if email ≠ [] ∧ email ∉ st.2 then
        if a.text ≠ [] ∧ '@' ∉ a.text then
          (st.1 ++ [⟨email, a.text, [], url, Conf.high⟩], st.2 ++ [email])
        else st
      else st
    else st) ([], [])
  let page_text := d.text
  let all_emails := extract_emails_from_text page_text
  let remaining := all_emails.filter (fun e => e ∉ step1.2)
  let step2 := remaining.foldl (fun (st : List Contact × List Str) email =>
    let idx := pyFind page_text email
    let start := (max 0 (idx - 150)).toNat
    let stop := (min (page_text.length : Int) (idx + email.length + 150)).toNat
    let context := (page_text.drop start).take (stop - start)
    match ner context with
    | p :: _ => (st.1 ++ [⟨email, p.name, p.title, url, Conf.medium⟩], st.2 ++ [email])
    | [] => (st.1 ++ [⟨email, [], [], url, Conf.low⟩], st.2 ++ [email])) step1
  step2.1

/-- A raw contact record as scrape_website accumulates them. -/
structure Record where
  email : Str
  name : Str
  source : Str
deriving DecidableEq, Repr

/-- Forward document links to the extraction collaborator
(process_file_url), skipping URLs already processed, and turn each
returned email into a record whose name is the comma-joined name
list.  Returns the new records and the grown processed set. -/
def fileRecords (fileX : Str → List Str × List Str) (processed : List Str)
    (links : List Str) : List Record × List Str :=
  links.foldl (fun st f =>
    if f ∈ st.2 then st
    else
      let er := fileX f
      let nstr := joinSep (s2l (", ")) er.2
      (st.1 ++ er.1.map (fun e => Record.mk e nstr f), st.2 ++ [f])) ([], processed)

/-- Mode detection outcome: the strategy flag, the homepage document if
the probe succeeded, and the document links it found. -/
structure MDOut where
  usePw : Bool
  docOpt : Option Doc
  fileLinks : List Str

/-- The mode-detection probe of scrape_website (lines 204 to 226): one
static GET of the homepage; Playwright is selected when no page or
document links were found, or when no plain emails were found and the
content carries the email-protection marker, or when the GET
raised. -/
def modeDetect (w : World) (base_url : Str) : MDOut :=
  match requestsGet w base_url with
  | some d =>
    let pr := parse_html_for_emails_and_links d base_url
    let u := (pr.pageLinks.isEmpty && pr.fileLinks.isEmpty) ||
      (pr.emails.isEmpty && isSubstr (s2l ("email-protection")) d.raw)
    ⟨u, some d, pr.fileLinks⟩
  | none => ⟨true, none, []⟩

/-- State of the priority scan. -/
structure PriSt where
  visited : List Str
  pages : Nat
  found : List Record
  links : List Str
  processed : List Str
  trace : List Str

/-- The priority-page loop of scrape_website (lines 270 to 303): visit
each sorted priority URL unless already visited or the page budget is
spent; the visited set and counter grow before the fetch; fetch
errors are caught and contribute nothing. -/
def priorityLoop (w : World) (usePw : Bool) (maxPages : Nat)
    (fileX : Str → List Str × List Str) : List Str → PriSt → PriSt
  | [], st => st
  | u :: rest, st =>
    if u ∈ st.visited ∨ st.pages ≥ maxPages then
      priorityLoop w usePw maxPages fileX rest st
    else
      let st1 : PriSt :=
        { st with
          visited := u :: st.visited
          pages := st.pages + 1
          trace := st.trace ++ [u] }
      match fetchPage w usePw u with
      | none => priorityLoop w usePw maxPages fileX rest st1
      | some d =>
        let pr := parse_html_for_emails_and_links d u
        let recs := pr.emails.map (fun e => Record.mk e [] u)
        let fr := fileRecords fileX st1.processed pr.fileLinks
        priorityLoop w usePw maxPages fileX rest
          { st1 with
            found := st1.found ++ recs ++ fr.1
            links := sunion st1.links pr.pageLinks
            processed := fr.2 }

/-- State of the main crawl loop.  ranOut records a truncation by the
recursion fuel; the fuel chosen below is proved sufficient, so it
stays false. -/
structure MainSt where
  queue : List Str
  visited : List Str
  pages : Nat
  found : List Record
  processed : List Str
  trace : List Str
  ranOut : Bool

/-- The main crawl of scrape_website (lines 329 to 374), fuelled
recursion core: dequeue while pages remain under the cap, skip
visited URLs and URLs whose www.-stripped netloc differs from the
domain's, otherwise fetch; in general-crawl mode (no sitemap) newly
found page links not yet visited are appended, possibly twice. -/
def mainLoopF (w : World) (usePw : Bool) (maxPages : Nat)
    (fileX : Str → List Str × List Str) (origNorm : Str)
    (sitemapMode : Bool) : Nat → MainSt → MainSt
  | 0, st =>
    { st with ranOut := !(st.queue.isEmpty || decide (st.pages ≥ maxPages)) }
  | fuel + 1, st =>
    match st.queue with
    | [] => st
    | u :: rest =>
      if st.pages ≥ maxPages then st
      else if u ∈ st.visited then
        mainLoopF w usePw maxPages fileX origNorm sitemapMode fuel
          { st with queue := rest }
      else if pyReplace (netlocOf u) (s2l ("www.")) [] ≠ origNorm then
        mainLoopF w usePw maxPages fileX origNorm sitemapMode fuel
          { st with queue := rest }
      else
        let st1 : MainSt :=
          { st with
            queue := rest
            visited := u :: st.visited
            pages := st.pages + 1
            trace := st.trace ++ [u] }
        match fetchPage w usePw u with
        | none => mainLoopF w usePw maxPages fileX origNorm sitemapMode fuel st1
        | some d =>
          let pr := parse_html_for_emails_and_links d u
          let recs := pr.emails.map (fun e => Record.mk e [] u)
          let fr := fileRecords fileX st1.processed pr.fileLinks
          let q2 := if sitemapMode then st1.queue
            else st1.queue ++ pr.pageLinks.filter (fun l => l ∉ st1.visited)
          mainLoopF w usePw maxPages fileX origNorm sitemapMode fuel
            { st1 with
              queue := q2
              found := st1.found ++ recs ++ fr.1
              processed := fr.2 }

/-- The total number of anchors any fetchable document carries: a bound
on how many page links one fetch can enqueue. -/
def worldAnchorBound (w : World) : Nat :=
  w.pages.foldr (fun p acc =>
    match p.2 with
    | FetchRes.good d => d.anchors.length + acc
    | FetchRes.bad d => d.anchors.length + acc
    | FetchRes.down => acc) 0

/-- Fuel that the sufficiency theorem below proves never runs out: each
skipped URL costs one unit and each of the at most maxPages - pages
fetches costs one unit plus at most worldAnchorBound new queue
entries. -/
def mainFuel (w : World) (maxPages : Nat) (st : MainSt) : Nat :=
  st.queue.length + (maxPages - st.pages) * (worldAnchorBound w + 1)

/-- The main crawl with its sufficient fuel. -/
def mainLoop (w : World) (usePw : Bool) (maxPages : Nat)
    (fileX : Str → List Str × List Str) (origNorm : Str)
    (sitemapMode : Bool) (st : MainSt) : MainSt :=
  mainLoopF w usePw maxPages fileX origNorm sitemapMode
    (mainFuel w maxPages st) st

/-- Everything one run of scrape_website did: the fetch attempts per
phase, whether the sitemap resolver ran, and the records each phase
appended (the returned found_data is their concatenation). -/
structure SWOut where
  usePw : Bool
  modeTrace : List Str
  homepageTrace : List Str
  priorityTrace : List Str
  mainTrace : List Str
  sitemapCalled : Bool
  sitemapTrace : List Str
  modeRecords : List Record
  priorityRecords : List Record
  mainRecords : List Record
deriving Inhabited

/-- The returned found_data list. -/
def SWOut.data (o : SWOut) : List Record :=
  o.modeRecords ++ o.priorityRecords ++ o.mainRecords

/-- Every page-fetch attempt of the run, in order: the mode-detection
GET, the homepage render, the priority scan, the main crawl. -/
def SWOut.allFetches (o : SWOut) : List Str :=
  o.modeTrace ++ o.homepageTrace ++ o.priorityTrace ++ o.mainTrace

/-- The homepage fetch that precedes priority-link discovery
(scrape_website lines 252 to 261): in Playwright mode the homepage is
rendered (again); in static mode the probe's content is reused; the
fallback re-fetch only runs when the probe left no content.  none
means the fetch raised, and that exception is NOT caught: the
enclosing try block has only a finally clause. -/
def homepageFetch (w : World) (b : Str) (md : MDOut) : Option (Doc × List Str) :=
  if md.usePw then
    match pwGoto w b with
    | some d => some (d, [b])
    | none => none
  else
    match md.docOpt with
    | some d => some (d, [])
    | none =>
      match requestsGet w b with
      | some d => some (d, [b])
      | none => none

/-- The crawl of scrape_website once the homepage content is in hand:
the priority scan over the sorted priority URLs plus the homepage,
the halt check, and otherwise the sitemap resolution seeding the main
crawl (falling back to the links collected from priority pages). -/
def scrapeCrawl (w : World) (b : Str) (maxPages : Nat)
    (fileX : Str → List Str × List Str) (md : MDOut) (hd : Doc × List Str) :
    SWOut :=
  let fr0 := fileRecords fileX [] md.fileLinks
  let pri := sortStr (sinsert b (find_priority_links hd.1 b))
  let p := priorityLoop w md.usePw maxPages fileX pri
    ⟨[], 0, [], [], fr0.2, []⟩
  if (fr0.1 ++ p.found).any (fun r => !r.email.isEmpty) then
    { usePw := md.usePw
      modeTrace := [b]
      homepageTrace := hd.2
      priorityTrace := p.trace
      mainTrace := []
      sitemapCalled := false
      sitemapTrace := []
      modeRecords := fr0.1
      priorityRecords := p.found
      mainRecords := [] }
  else
    let sm := get_sitemap_urls w b
    let qset := if sm.urls ≠ [] then sm.urls else p.links
    let queue := qset.filter (fun x => x ∉ p.visited)
    let mn := mainLoop w md.usePw maxPages fileX
      (pyReplace (netlocOf b) (s2l ("www.")) []) (sm.urls ≠ [])
      ⟨queue, p.visited, p.pages, [], p.processed, [], false⟩
    { usePw := md.usePw
      modeTrace := [b]
      homepageTrace := hd.2
      priorityTrace := p.trace
      mainTrace := mn.trace
      sitemapCalled := true
      sitemapTrace := sm.parsedTrace
      modeRecords := fr0.1
      priorityRecords := p.found
      mainRecords := mn.found }

/-- scraper.scrape_website.  The mode probe always issues the initial
GET; a failing homepage fetch escapes as an exception
(Except.error); otherwise the crawl runs to completion. -/
def scrape_website (w : World) (base_url : Str) (maxPages : Nat)
    (fileX : Str → List Str × List Str) : Except Unit SWOut :=
  let md := modeDetect w base_url
  match homepageFetch w base_url md with
  | none => Except.error ()
  | some hd => Except.ok (scrapeCrawl w base_url maxPages fileX md hd)

/-- A row of the exported record set. -/
structure AggRow where
  website : Str
  email : Str
  name : Str
  source : Str
deriving DecidableEq, Repr

/-- The rows main() appends for one domain: one per record, or the
explicit No email found marker. -/
def domainRows (base : Str) (out : SWOut) : List AggRow :=
  if out.data ≠ [] then
    out.data.map (fun r => AggRow.mk (netlocOf base) r.email r.name r.source)
  else [AggRow.mk (netlocOf base) (s2l ("No email found")) [] base]

/-- Stable descending insertion by name length, modelling
df.sort_values(by='name_len', ascending=False) (pandas' sort order
among equal lengths is unspecified; the statements proved do not
depend on it). -/
def insByLen (r : AggRow) : List AggRow → List AggRow
  | [] => [r]
  | x :: xs =>
    if r.name.length ≥ x.name.length then r :: x :: xs else x :: insByLen r xs

/-- The name-length sort of main() lines 438 to 440. -/
def sortByNameLen (l : List AggRow) : List AggRow := l.foldr insByLen []

/-- df.drop_duplicates(subset=['Website', 'Found_Email']): keep the
first row per exact (website, email) pair. -/
def dedupKeyFirst : List AggRow → List (Str × Str) → List AggRow
  | [], _ => []
  | r :: rest, seen =>
    if (r.website, r.email) ∈ seen then dedupKeyFirst rest seen
    else r :: dedupKeyFirst rest ((r.website, r.email) :: seen)

/-- The result aggregation of main() lines 425 to 443. -/
def aggregate (rows : List AggRow) : List AggRow :=
  dedupKeyFirst (sortByNameLen rows) []

/-- main() line 402: prefix https:// when the input line has no
scheme. -/
def normalizeInput (u : Str) : Str :=
  if schemeOf u = [] then s2l ("https://") ++ u else u

/-- The per-domain loop of main(): scrape_website is called without any
try block, so an escaped exception aborts the whole run. -/
def runMainGo (w : World) (fileX : Str → List Str × List Str) :
    List Str → List AggRow → Except Unit (List AggRow)
  | [], acc => Except.ok (aggregate acc)
  | u :: rest, acc =>
    let b := normalizeInput u
    match scrape_website w b 100 fileX with
    | Except.error e => Except.error e
    | Except.ok out => runMainGo w fileX rest (acc ++ domainRows b out)

/-- scraper.main() from the URL list onward, with
MAX_PAGES_PER_DOMAIN = 100 as configured. -/
def runMain (w : World) (urls : List Str)
    (fileX : Str → List Str × List Str) : Except Unit (List AggRow) :=
  runMainGo w fileX urls []

/-
Concrete scenario inputs used by the counterexamples and witnesses.
-/

/-- A document extractor that finds nothing (no document links occur in
the scenario worlds). -/
def fx0 : Str → List Str × List Str := fun _ => ([], [])

/-- Scenario A, base URL: a static site whose homepage shows one plain
email and one internal link. -/
def bA : Str := s2l ("http://a.com")

/-- Scenario A homepage. -/
def docA : Doc :=
  { anchors := [⟨s2l ("http://a.com/x"), []⟩], text := s2l ("x@a.com y") }

/-- Scenario A world: only the homepage resolves. -/
def wA : World := ⟨[(bA, FetchRes.good docA)]⟩

/-- Scenario B, base URL: the spec's mailto scenario. -/
def bB : Str := s2l ("http://b.com")

/-- Scenario B contact-page URL. -/
def contactB : Str := s2l ("http://b.com/contact")

/-- Scenario B homepage: one anchor to /contact. -/
def docB : Doc := { anchors := [⟨contactB, s2l ("Contact")⟩] }

/-- Scenario B contact page: a mailto anchor with anchor text Info
Team, which is also the page's only visible text; no plain email
appears anywhere. -/
def docBc : Doc :=
  { anchors := [⟨s2l ("mailto:info@example.com"), s2l ("Info Team")⟩]
    text := s2l ("Info Team") }

/-- Scenario B world. -/
def wB : World :=
  ⟨[(bB, FetchRes.good docB), (contactB, FetchRes.good docBc)]⟩

/-- The candidate the spec's scenario expects. -/
def infoTeamContact : Contact :=
  ⟨s2l ("info@example.com"), s2l ("Info Team"), [], contactB, Conf.high⟩

/-- Scenario C, base URL: the budget scenario. -/
def bC : Str := s2l ("http://c")

/-- The i-th internal page URL of scenario C. -/
def pageUrlC (i : Nat) : Str := s2l ("http://c/") ++ Nat.toDigits 10 i

/-- Scenario C homepage: one internal link (keeping the site static),
no contact keyword anywhere. -/
def docC : Doc := { anchors := [⟨pageUrlC 0, []⟩] }

/-- Scenario C sitemap: a plain urlset listing the hundred internal
pages. -/
def sitemapDocC : Doc := { urlLocs := (List.range 100).map pageUrlC }

/-- Scenario C world: the homepage, the sitemap at its default
location, and 100 empty internal pages; no robots.txt. -/
def wC : World :=
  ⟨(bC, FetchRes.good docC) ::
    (s2l ("http://c/sitemap.xml"), FetchRes.good sitemapDocC) ::
    (List.range 100).map (fun i => (pageUrlC i, FetchRes.good {}))⟩

/-- Scenario D, base URL: the cross-domain priority-link scenario. -/
def bD : Str := s2l ("http://d.com")

/-- The cross-domain URL whose href carries a contact keyword. -/
def crossD : Str := s2l ("http://other.com/contact")

/-- Scenario D internal page. -/
def pD : Str := s2l ("http://d.com/p")

/-- Scenario D homepage: a cross-domain contact link and an internal
link. -/
def docD : Doc := { anchors := [⟨crossD, s2l ("x")⟩, ⟨pD, []⟩] }

/-- Scenario D world. -/
def wD : World := ⟨[(bD, FetchRes.good docD), (pD, FetchRes.good {})]⟩

/-- Scenario E, second domain base URL (the first input line e1.com
normalises to https://e1.com, which is unreachable). -/
def e2url : Str := s2l ("https://e2.com")

/-- Scenario E second homepage: a plain email and an internal link. -/
def docE : Doc :=
  { anchors := [⟨s2l ("https://e2.com/x"), []⟩], text := s2l ("z@e2.com m") }

/-- Scenario E world: e1.com is down entirely, e2.com works. -/
def wE : World := ⟨[(e2url, FetchRes.good docE)]⟩

/-- The priority-scan outcome of scenario A, extracted from the run
(the run succeeds, as the theorems verify). -/
def outA : SWOut :=
  match scrape_website wA bA 100 fx0 with
  | Except.ok o => o
  | Except.error _ => default

/-- The crawl outcome of the budget scenario C with the cap set to 5
(the run succeeds, as the theorems verify). -/
def outC : SWOut :=
  match scrape_website wC bC 5 fx0 with
  | Except.ok o => o
  | Except.error _ => default

/-- Two aggregation rows whose emails differ only in case. -/
def cexRow1 : AggRow := ⟨s2l ("a.com"), s2l ("Info@x.com"), [], []⟩

/-- The lowercase twin of cexRow1. -/
def cexRow2 : AggRow := ⟨s2l ("a.com"), s2l ("info@x.com"), [], []⟩

/-
Theorems.  Helper lemmas first, then one theorem per claim (with its
witness or counterexample where the claim's status needs one).
-/

/-- Membership in the set-insertion model. -/
theorem mem_sinsert {x y : Str} {l : List Str} :
    x ∈ sinsert y l ↔ x = y ∨ x ∈ l := by
  unfold sinsert
  split
  · rename_i hy
    constructor
    · exact fun h => Or.inr h
    · rintro (rfl | h)
      · exact hy
      · exact h
  · simp [List.mem_append, or_comm]

/-- Membership in the set-union model. -/
theorem mem_sunion {x : Str} {l xs : List Str} :
    x ∈ sunion l xs ↔ x ∈ l ∨ x ∈ xs := by
  induction xs generalizing l with
  | nil => simp [sunion]
  | cons a t ih =>
    show x ∈ sunion (sinsert a l) t ↔ _
    rw [ih]
    simp [mem_sinsert, List.mem_cons]
    tauto

/-- Inserting grows the list by at most one element. -/
theorem length_sinsert (x : Str) (l : List Str) :
    (sinsert x l).length ≤ l.length + 1 := by
  unfold sinsert
  split <;> simp

/-- Union grows the list by at most the added list's length. -/
theorem length_sunion (l xs : List Str) :
    (sunion l xs).length ≤ l.length + xs.length := by
  induction xs generalizing l with
  | nil => simp [sunion]
  | cons a t ih =>
    show (sunion (sinsert a l) t).length ≤ _
    calc (sunion (sinsert a l) t).length ≤ (sinsert a l).length + t.length := ih _
    _ ≤ l.length + 1 + t.length := by
        have := length_sinsert a l
        omega
    _ = l.length + (a :: t).length := by simp; omega

/-- Deduplication preserves membership. -/
theorem mem_dedupFirst {x : Str} {xs : List Str} :
    x ∈ dedupFirst xs ↔ x ∈ xs := by
  simp [dedupFirst, mem_sunion]

set_option maxRecDepth 4000 in
/-- The hex parser inverts the hex printer on bytes. -/
theorem pyIntHex_toHex2 : ∀ n : Nat, n < 256 → pyIntHex (toHex2 n) = some (n : Int) := by
  decide

/-- chunks2 recovers a flattened list of two-character blocks. -/
theorem chunks2_pairs : ∀ xs : List Str, (∀ x ∈ xs, x.length = 2) →
    chunks2 xs.flatten = xs := by
  intro xs
  induction xs with
  | nil => intro _; rfl
  | cons h t ih =>
    intro hl
    obtain ⟨a, b, rfl⟩ := List.length_eq_two.mp (hl h (by simp))
    have : ([a, b] :: t).flatten = a :: b :: t.flatten := by simp
    rw [this]
    show [a, b] :: chunks2 t.flatten = _
    rw [ih (fun x hx => hl x (by simp [hx]))]

/-- Each xor-encoded chunk decodes back to its byte. -/
theorem decodeChunks_encode (key : Nat) (hk : key < 256) :
    ∀ l : List Nat, (∀ b ∈ l, b < 256) →
      decodeChunks (key : Int) (l.map (fun b => toHex2 (b ^^^ key))) = some l := by
  intro l
  induction l with
  | nil => intro _; rfl
  | cons b t ih =>
    intro hb
    have hblt : b < 256 := hb b (by simp)
    have hxlt : b ^^^ key < 256 := Nat.xor_lt_two_pow (n := 8) hblt hk
    have hx : pyXor ((b ^^^ key : Nat) : Int) ((key : Nat) : Int) = ((b : Nat) : Int) := by
      show Int.ofNat ((b ^^^ key) ^^^ key) = Int.ofNat b
      rw [Nat.xor_cancel_right]
    have hcond : (0 : Int) ≤ ((b : Nat) : Int) ∧ ((b : Nat) : Int) < 1114112 :=
      ⟨Int.ofNat_nonneg b, by exact_mod_cast (by omega : b < 1114112)⟩
    show decodeChunks _ (toHex2 (b ^^^ key) :: _) = _
    rw [decodeChunks, pyIntHex_toHex2 _ hxlt, Option.some_bind, ih (fun x hx => hb x (by simp [hx]))]
    simp only [hx, if_pos hcond, Option.map_some]
    simp

/-- If any chunk fails the hex parse, the whole decode fails: the list
comprehension raises ValueError at that chunk. -/
theorem decodeChunks_none (r : Int) (cs : List Str) (c : Str)
    (hc : c ∈ cs) (h : pyIntHex c = none) : decodeChunks r cs = none := by
  induction cs with
  | nil => cases hc
  | cons a as ih =>
    rcases List.mem_cons.mp hc with rfl | hmem
    · simp [decodeChunks, h]
    · rw [decodeChunks]
      cases ha : pyIntHex a with
      | none => rfl
      | some v => simp [ih hmem]

/-- C5 counterexample: the payload 1a 2 contains a space, which is not
a hex digit, yet it decodes to the character 0x18 rather than to no
result, because Python's int tolerates surrounding whitespace in a
chunk. -/
theorem c5_obfuscation_counterexample :
    decode_cf_email (some (s2l ("1a 2"))) = some [24] ∧
    (' ' ∈ s2l ("1a 2")) ∧ hexDigitVal ' ' = none := by
  refine ⟨rfl, by decide, rfl⟩

/-- C5 as amended: the round trip holds for every key byte and every
email given as bytes; a None payload, an empty payload, and a payload
any of whose two-character chunks fails Python's hex parse - whether
the leading key chunk (zz) or a body chunk (1agg) - decode to no
result.  (Chunks that int(s,16) tolerates, such as ones padded with
whitespace or carrying a sign, do decode, which is what the
counterexample exhibits.) -/
theorem c5_obfuscation_amended :
    (∀ (key : Nat) (email : List Nat), key < 256 → (∀ b ∈ email, b < 256) →
      decode_cf_email (some (cfEncode key email)) = some email) ∧
    decode_cf_email none = none ∧
    decode_cf_email (some []) = none ∧
    (∀ s : Str, (pyIntHex (s.take 2) = none ∨
        ∃ c ∈ chunks2 (s.drop 2), pyIntHex c = none) →
      decode_cf_email (some s) = none) ∧
    decode_cf_email (some (s2l ("zz"))) = none ∧
    decode_cf_email (some (s2l ("1agg"))) = none := by
  refine ⟨?_, rfl, rfl, ?_, rfl, rfl⟩
  · intro key email hk hb
    rw [decode_cf_email]
    unfold cfEncode
    have htake : (toHex2 key ++ (email.map (fun b => toHex2 (b ^^^ key))).flatten).take 2
        = toHex2 key := by
      rw [show (2 : Nat) = (toHex2 key).length from rfl, List.take_left]
    have hdrop : (toHex2 key ++ (email.map (fun b => toHex2 (b ^^^ key))).flatten).drop 2
        = (email.map (fun b => toHex2 (b ^^^ key))).flatten := by
      rw [show (2 : Nat) = (toHex2 key).length from rfl, List.drop_left]
    rw [Option.some_bind, htake, pyIntHex_toHex2 key hk, Option.some_bind, hdrop]
    rw [chunks2_pairs _ (by rintro x hx; obtain ⟨b, _, rfl⟩ := List.mem_map.mp hx; rfl)]
    exact decodeChunks_encode key hk email hb
  · intro s h
    rcases h with h | ⟨c, hc, hcn⟩
    · simp [decode_cf_email, h]
    · cases hr : pyIntHex (s.take 2) with
      | none => simp [decode_cf_email, hr]
      | some r => simp [decode_cf_email, hr, decodeChunks_none r _ c hc hcn]

/-- C8 counterexample: an email-like string ending in .svg survives
both extraction filters, because the code excludes only six
extensions and .svg (like .webp) is not among them. -/
theorem c8_filter_counterexample :
    emailsFromText (s2l ("x@a.svg")) = [s2l ("x@a.svg")] ∧
    pyEndsWith (s2l ("x@a.svg")) (s2l (".svg")) = true ∧
    extract_emails_from_text (s2l ("x@a.svg")) = [s2l ("x@a.svg")] := by
  exact ⟨by decide, by decide, by decide⟩

/-- C8 as amended: both extraction stages exclude every regex match
ending in one of the six filtered extensions .png, .jpg, .gif, .jpeg,
.css, .js (so such a string never appears in their output); .svg and
.webp are not filtered. -/
theorem c8_filter_amended :
    (∀ t e, e ∈ emailsFromText t → endsWithAsset e = false) ∧
    (∀ t e, e ∈ extract_emails_from_text t → endsWithAsset e = false) := by
  constructor
  · intro t e he
    simp only [emailsFromText, mem_dedupFirst, List.mem_filter] at he
    simpa using he.2
  · intro t e he
    simp only [extract_emails_from_text, mem_dedupFirst, List.mem_filter] at he
    simpa using he.2

/-- The parsed-sitemap trace never repeats a URL: the parsed set guards
every iteration. -/
theorem sitemapLoop_trace_nodup (w : World) :
    ∀ (fuel : Nat) (wl parsed acc trace : List Str), trace.Nodup →
      (∀ x ∈ trace, x ∈ parsed) →
      (sitemapLoop w fuel wl parsed acc trace).parsedTrace.Nodup := by
  intro fuel
  induction fuel with
  | zero => intro wl parsed acc trace h1 _; exact h1
  | succ n ih =>
    intro wl parsed acc trace h1 h2
    cases wl with
    | nil => exact h1
    | cons u rest =>
      have hstep : ∀ parsed2 : List Str, (∀ x ∈ parsed, x ∈ parsed2) →
          u ∈ parsed2 → u ∉ parsed →
          ((trace ++ [u]).Nodup ∧ ∀ x ∈ trace ++ [u], x ∈ parsed2) := by
        intro parsed2 hsub hu hnp
        constructor
        · simp only [List.nodup_append, List.nodup_cons]
          refine ⟨h1, by simp, ?_⟩
          intro x hx hxu
          simp only [List.mem_singleton] at hxu
          subst hxu
          exact hnp (h2 x hx)
        · intro x hx
          rcases List.mem_append.mp hx with hx | hx
          · exact hsub x (h2 x hx)
          · simp at hx; subst hx; exact hu
      by_cases hu : u ∈ parsed
      · simp only [sitemapLoop, if_pos hu]
        exact ih rest parsed acc trace h1 h2
      · simp only [sitemapLoop, if_neg hu]
        cases hfetch : wFetch w u with
        | good d =>
          by_cases hlocs : d.sitemapLocs ≠ []
          · simp only [if_pos hlocs]
            obtain ⟨ha, hb⟩ := hstep (u :: parsed) (by intro x hx; simp [hx]) (by simp) hu
            exact ih _ _ _ _ ha hb
          · simp only [if_neg hlocs]
            obtain ⟨ha, hb⟩ := hstep (u :: parsed) (by intro x hx; simp [hx]) (by simp) hu
            exact ih _ _ _ _ ha hb
        | bad d =>
          obtain ⟨ha, hb⟩ := hstep (u :: parsed) (by intro x hx; simp [hx]) (by simp) hu
          exact ih _ _ _ _ ha hb
        | down =>
          obtain ⟨ha, hb⟩ := hstep (u :: parsed) (by intro x hx; simp [hx]) (by simp) hu
          exact ih _ _ _ _ ha hb

/-- Every stripped nested loc of a reachable document is listed in
allIndexLocs, and each batch is no longer than the whole list. -/
theorem wFetch_good_locs (w : World) (u : Str) (d : Doc)
    (h : wFetch w u = FetchRes.good d) :
    (∀ x ∈ d.sitemapLocs.map pyStrip, x ∈ allIndexLocs w) ∧
      (d.sitemapLocs.map pyStrip).length ≤ (allIndexLocs w).length := by
  obtain ⟨pages⟩ := w
  induction pages with
  | nil => exact absurd h (by simp [wFetch, List.lookup])
  | cons p ps ih =>
    obtain ⟨k, r⟩ := p
    show (∀ x ∈ _, x ∈ allIndexLocs ⟨(k, r) :: ps⟩) ∧ _
    have hall : allIndexLocs ⟨(k, r) :: ps⟩ =
        (match r with
         | FetchRes.good d0 => d0.sitemapLocs.map pyStrip
         | _ => []) ++ allIndexLocs ⟨ps⟩ := by
      cases r <;> simp [allIndexLocs]
    by_cases hk : u = k
    · have : wFetch ⟨(k, r) :: ps⟩ u = r := by
        simp [wFetch, List.lookup, hk]
      rw [this] at h
      subst h
      rw [hall]
      exact ⟨fun x hx => List.mem_append.mpr (Or.inl hx), by simp⟩
    · have hbe : (u == k) = false := beq_eq_false_iff_ne.mpr hk
      have : wFetch ⟨(k, r) :: ps⟩ u = wFetch ⟨ps⟩ u := by
        simp [wFetch, List.lookup, hbe]
      rw [this] at h
      obtain ⟨h1, h2⟩ := ih h
      rw [hall]
      refine ⟨fun x hx => List.mem_append.mpr (Or.inr (h1 x hx)), ?_⟩
      calc (d.sitemapLocs.map pyStrip).length ≤ (allIndexLocs ⟨ps⟩).length := h2
      _ ≤ _ := by simp

/-- With fuel at least the worklist length plus (A+1) units per not yet
parsed member of the universe U, the sitemap loop drains its
worklist. -/
theorem sitemapLoop_finished (w : World) (U : List Str) (A : Nat)
    (hU : ∀ u d, wFetch w u = FetchRes.good d →
      ∀ x ∈ d.sitemapLocs.map pyStrip, x ∈ U)
    (hA : ∀ u d, wFetch w u = FetchRes.good d →
      (d.sitemapLocs.map pyStrip).length ≤ A) :
    ∀ (fuel : Nat) (wl parsed acc trace : List Str), (∀ x ∈ wl, x ∈ U) →
      wl.length + (U.toFinset \ parsed.toFinset).card * (A + 1) ≤ fuel →
      (sitemapLoop w fuel wl parsed acc trace).finished = true := by
  intro fuel
  induction fuel with
  | zero =>
    intro wl parsed acc trace _ hf
    have : wl = [] := by
      cases wl with
      | nil => rfl
      | cons a t => simp at hf
    subst this
    rfl
  | succ n ih =>
    intro wl parsed acc trace hwl hf
    cases wl with
    | nil => rfl
    | cons u rest =>
      by_cases hu : u ∈ parsed
      · simp only [sitemapLoop, if_pos hu]
        apply ih rest parsed acc trace (fun x hx => hwl x (by simp [hx]))
        simp at hf
        omega
      · have huU : u ∈ U := hwl u (by simp)
        have hmem : u ∈ U.toFinset \ parsed.toFinset := by
          rw [Finset.mem_sdiff]
          exact ⟨List.mem_toFinset.mpr huU, fun hc => hu (List.mem_toFinset.mp hc)⟩
        have hpos : 0 < (U.toFinset \ parsed.toFinset).card :=
          Finset.card_pos.mpr ⟨u, hmem⟩
        have hset : U.toFinset \ (u :: parsed).toFinset =
            (U.toFinset \ parsed.toFinset).erase u := by
          ext x
          simp only [List.toFinset_cons, Finset.mem_sdiff, Finset.mem_erase,
            Finset.mem_insert]
          tauto
        have hcard : (U.toFinset \ (u :: parsed).toFinset).card =
            (U.toFinset \ parsed.toFinset).card - 1 := by
          rw [hset, Finset.card_erase_of_mem hmem]
        have hmul : A + 1 ≤ (U.toFinset \ parsed.toFinset).card * (A + 1) :=
          le_mul_of_one_le_left (by omega) hpos
        have hrw : ((U.toFinset \ parsed.toFinset).card - 1) * (A + 1) =
            (U.toFinset \ parsed.toFinset).card * (A + 1) - (A + 1) :=
          Nat.sub_one_mul _ _
        simp only [sitemapLoop, if_neg hu]
        have hlen : rest.length + 1 +
            (U.toFinset \ parsed.toFinset).card * (A + 1) ≤ n + 1 := by
          simpa using hf
        cases hfetch : wFetch w u with
        | good d =>
          by_cases hlocs : d.sitemapLocs ≠ []
          · simp only [if_pos hlocs]
            apply ih
            · intro x hx
              rcases mem_sunion.mp hx with hx | hx
              · exact hwl x (by simp [hx])
              · exact hU u d hfetch x hx
            · have h1 : (sunion rest (d.sitemapLocs.map pyStrip)).length ≤
                  rest.length + A := by
                calc (sunion rest (d.sitemapLocs.map pyStrip)).length
                    ≤ rest.length + (d.sitemapLocs.map pyStrip).length :=
                      length_sunion _ _
                _ ≤ rest.length + A := by
                    have := hA u d hfetch
                    omega
              rw [hcard, hrw]
              omega
          · simp only [if_neg hlocs]
            apply ih rest _ _ _ (fun x hx => hwl x (by simp [hx]))
            rw [hcard, hrw]
            omega
        | bad d =>
          apply ih rest _ _ _ (fun x hx => hwl x (by simp [hx]))
          rw [hcard, hrw]
          omega
        | down =>
          apply ih rest _ _ _ (fun x hx => hwl x (by simp [hx]))
          rw [hcard, hrw]
          omega

/-- The configured fuel drains any initial worklist. -/
theorem sitemapFuel_sufficient (w : World) (init : List Str) :
    (sitemapLoop w (sitemapFuel w init) init [] [] []).finished = true := by
  apply sitemapLoop_finished w (init ++ allIndexLocs w) (allIndexLocs w).length
  · intro u d h x hx
    exact List.mem_append.mpr (Or.inr ((wFetch_good_locs w u d h).1 x hx))
  · intro u d h
    exact (wFetch_good_locs w u d h).2
  · intro x hx
    exact List.mem_append.mpr (Or.inl hx)
  · simp only [List.toFinset_nil, Finset.sdiff_empty, sitemapFuel]
    have hc : (init ++ allIndexLocs w).toFinset.card ≤
        init.length + (allIndexLocs w).length := by
      calc (init ++ allIndexLocs w).toFinset.card ≤ (init ++ allIndexLocs w).length :=
        List.toFinset_card_le _
      _ = init.length + (allIndexLocs w).length := by simp
    have := Nat.mul_le_mul_right ((allIndexLocs w).length + 1)
      (show (init ++ allIndexLocs w).toFinset.card ≤
        init.length + (allIndexLocs w).length + 1 by omega)
    omega

/-- C9: sitemap resolution never parses the same sitemap URL twice (the
parsed set guards each iteration), and the resolution loop drains its
whole worklist, terminating on every world, cyclic or self-referential
sitemap indexes included. -/
theorem c9_sitemap_resolution (w : World) (base_url : Str) :
    (get_sitemap_urls w base_url).finished = true ∧
    (get_sitemap_urls w base_url).parsedTrace.Nodup := by
  unfold get_sitemap_urls
  exact ⟨sitemapFuel_sufficient w _,
    sitemapLoop_trace_nodup w _ _ _ _ _ (by simp) (by simp)⟩

/-- What one priority scan adds: the fetch trace grows by a
duplicate-free block of previously unvisited URLs, each fetched URL
enters the visited set, and the page counter counts the fetches,
never passing the cap. -/
theorem priorityLoop_spec (w : World) (usePw : Bool) (maxP : Nat)
    (fileX : Str → List Str × List Str) :
    ∀ (l : List Str) (st : PriSt), ∃ added : List Str,
      (priorityLoop w usePw maxP fileX l st).trace = st.trace ++ added ∧
      added.Nodup ∧
      (∀ x ∈ added, x ∉ st.visited) ∧
      (∀ x, x ∈ (priorityLoop w usePw maxP fileX l st).visited ↔
        x ∈ added ∨ x ∈ st.visited) ∧
      (priorityLoop w usePw maxP fileX l st).pages = st.pages + added.length ∧
      (priorityLoop w usePw maxP fileX l st).pages ≤ max st.pages maxP := by
  intro l
  induction l with
  | nil =>
    intro st
    exact ⟨[], by simp [priorityLoop], by simp, by simp,
      by simp [priorityLoop], by simp [priorityLoop], by simp [priorityLoop]⟩
  | cons u rest ih =>
    intro st
    by_cases hskip : u ∈ st.visited ∨ st.pages ≥ maxP
    · simp only [priorityLoop, if_pos hskip]
      exact ih st
    · have hnv : u ∉ st.visited := fun hc => hskip (Or.inl hc)
      have hpl : st.pages < maxP := by
        rcases Nat.lt_or_ge st.pages maxP with h | h
        · exact h
        · exact absurd (Or.inr h) hskip
      have key : ∀ st' : PriSt, st'.visited = u :: st.visited →
          st'.pages = st.pages + 1 → st'.trace = st.trace ++ [u] →
          ∃ added : List Str,
            (priorityLoop w usePw maxP fileX rest st').trace = st.trace ++ added ∧
            added.Nodup ∧
            (∀ x ∈ added, x ∉ st.visited) ∧
            (∀ x, x ∈ (priorityLoop w usePw maxP fileX rest st').visited ↔
              x ∈ added ∨ x ∈ st.visited) ∧
            (priorityLoop w usePw maxP fileX rest st').pages =
              st.pages + added.length ∧
            (priorityLoop w usePw maxP fileX rest st').pages ≤ max st.pages maxP := by
        intro st' hv hp ht
        obtain ⟨a, h1, h2, h3, h4, h5, h6⟩ := ih st'
        refine ⟨u :: a, ?_, ?_, ?_, ?_, ?_, ?_⟩
        · rw [h1, ht, List.append_assoc]
          rfl
        · exact List.nodup_cons.mpr
            ⟨fun hu => (h3 u hu) (by rw [hv]; exact List.mem_cons_self u _), h2⟩
        · intro x hx
          rcases List.mem_cons.mp hx with rfl | hx
          · exact hnv
          · intro hc
            exact (h3 x hx) (by rw [hv]; exact List.mem_cons_of_mem _ hc)
        · intro x
          rw [h4, hv]
          simp only [List.mem_cons]
          tauto
        · rw [h5, hp, List.length_cons]
          omega
        · have h7 := h6
          rw [hp] at h7
          omega
      cases hf : fetchPage w usePw u with
      | none =>
        simp only [priorityLoop, if_neg hskip, hf]
        exact key _ rfl rfl rfl
      | some d =>
        simp only [priorityLoop, if_neg hskip, hf]
        exact key _ rfl rfl rfl

/-- What the fuelled main loop adds: the fetch trace grows by a
duplicate-free block of previously unvisited URLs, each in the
normalized original domain; every fetched URL enters the visited set
and the counter counts fetches without passing the cap. -/
theorem mainLoopF_spec (w : World) (usePw : Bool) (maxP : Nat)
    (fileX : Str → List Str × List Str) (origNorm : Str) (smMode : Bool) :
    ∀ (fuel : Nat) (st : MainSt), ∃ added : List Str,
      (mainLoopF w usePw maxP fileX origNorm smMode fuel st).trace =
        st.trace ++ added ∧
      added.Nodup ∧
      (∀ x ∈ added, x ∉ st.visited) ∧
      (∀ x, x ∈ (mainLoopF w usePw maxP fileX origNorm smMode fuel st).visited ↔
        x ∈ added ∨ x ∈ st.visited) ∧
      (mainLoopF w usePw maxP fileX origNorm smMode fuel st).pages =
        st.pages + added.length ∧
      (mainLoopF w usePw maxP fileX origNorm smMode fuel st).pages ≤
        max st.pages maxP ∧
      (∀ x ∈ added, pyReplace (netlocOf x) (s2l ("www.")) [] = origNorm) := by
  intro fuel
  induction fuel with
  | zero =>
    intro st
    exact ⟨[], by simp [mainLoopF], by simp, by simp, by simp [mainLoopF],
      by simp [mainLoopF], by simp [mainLoopF], by simp⟩
  | succ n ih =>
    intro st
    cases hq : st.queue with
    | nil =>
      refine ⟨[], ?_, by simp, by simp, ?_, ?_, ?_, by simp⟩ <;>
        simp [mainLoopF, hq]
    | cons u rest =>
      by_cases hp : st.pages ≥ maxP
      · refine ⟨[], ?_, by simp, by simp, ?_, ?_, ?_, by simp⟩ <;>
          simp [mainLoopF, hq, hp]
      · have hkeep : ∀ st' : MainSt, st'.visited = st.visited →
            st'.pages = st.pages → st'.trace = st.trace →
            ∃ added : List Str,
              (mainLoopF w usePw maxP fileX origNorm smMode n st').trace =
                st.trace ++ added ∧
              added.Nodup ∧
              (∀ x ∈ added, x ∉ st.visited) ∧
              (∀ x, x ∈ (mainLoopF w usePw maxP fileX origNorm smMode n st').visited ↔
                x ∈ added ∨ x ∈ st.visited) ∧
              (mainLoopF w usePw maxP fileX origNorm smMode n st').pages =
                st.pages + added.length ∧
              (mainLoopF w usePw maxP fileX origNorm smMode n st').pages ≤
                max st.pages maxP ∧
              (∀ x ∈ added, pyReplace (netlocOf x) (s2l ("www.")) [] = origNorm) := by
          intro st' hv hpg ht
          obtain ⟨a, h1, h2, h3, h4, h5, h6, h7⟩ := ih st'
          rw [hv] at h3 h4
          rw [hpg] at h5 h6
          rw [ht] at h1
          exact ⟨a, h1, h2, h3, h4, h5, h6, h7⟩
        by_cases hvis : u ∈ st.visited
        · simp only [mainLoopF, hq, if_neg hp, if_pos hvis]
          exact hkeep _ rfl rfl rfl
        · by_cases hdom : pyReplace (netlocOf u) (s2l ("www.")) [] ≠ origNorm
          · simp only [mainLoopF, hq, if_neg hp, if_neg hvis, if_pos hdom]
            exact hkeep _ rfl rfl rfl
          · have hdom' : pyReplace (netlocOf u) (s2l ("www.")) [] = origNorm := by
              by_contra hc
              exact hdom hc
            have key : ∀ st' : MainSt, st'.visited = u :: st.visited →
                st'.pages = st.pages + 1 → st'.trace = st.trace ++ [u] →
                ∃ added : List Str,
                  (mainLoopF w usePw maxP fileX origNorm smMode n st').trace =
                    st.trace ++ added ∧
                  added.Nodup ∧
                  (∀ x ∈ added, x ∉ st.visited) ∧
                  (∀ x, x ∈ (mainLoopF w usePw maxP fileX origNorm smMode n st').visited ↔
                    x ∈ added ∨ x ∈ st.visited) ∧
                  (mainLoopF w usePw maxP fileX origNorm smMode n st').pages =
                    st.pages + added.length ∧
                  (mainLoopF w usePw maxP fileX origNorm smMode n st').pages ≤
                    max st.pages maxP ∧
                  (∀ x ∈ added,
                    pyReplace (netlocOf x) (s2l ("www.")) [] = origNorm) := by
              intro st' hv hpg ht
              obtain ⟨a, h1, h2, h3, h4, h5, h6, h7⟩ := ih st'
              refine ⟨u :: a, ?_, ?_, ?_, ?_, ?_, ?_, ?_⟩
              · rw [h1, ht, List.append_assoc]
                rfl
              · exact List.nodup_cons.mpr
                  ⟨fun hu => (h3 u hu) (by rw [hv]; exact List.mem_cons_self u _), h2⟩
              · intro x hx
                rcases List.mem_cons.mp hx with rfl | hx
                · exact hvis
                · intro hc
                  exact (h3 x hx) (by rw [hv]; exact List.mem_cons_of_mem _ hc)
              · intro x
                rw [h4, hv]
                simp only [List.mem_cons]
                tauto
              · rw [h5, hpg, List.length_cons]
                omega
              · have h8 := h6
                rw [hpg] at h8
                have : st.pages < maxP := Nat.lt_of_not_ge hp
                omega
              · intro x hx
                rcases List.mem_cons.mp hx with rfl | hx
                · exact hdom'
                · exact h7 x hx
            cases hf : fetchPage w usePw u with
            | none =>
              simp only [mainLoopF, hq, if_neg hp, if_neg hvis, if_neg hdom, hf]
              exact key _ rfl rfl rfl
            | some d =>
              simp only [mainLoopF, hq, if_neg hp, if_neg hvis, if_neg hdom, hf]
              exact key _ rfl rfl rfl

/-- One classification step grows the page-link list by at most one. -/
theorem linkStep_fst_len (url bd : Str) (st : List Str × List Str)
    (a : Anchor) : (linkStep url bd st a).1.length ≤ st.1.length + 1 := by
  unfold linkStep
  dsimp only
  split_ifs
  · simp
  · simp
  · simpa using length_sinsert (beforeChar '#' (pyUrljoin url a.href)) st.1
  · simp

/-- Classification yields at most one page link per anchor. -/
theorem linkClassify_fst_len (url bd : Str) (anchors : List Anchor) :
    (linkClassify url bd anchors).1.length ≤ anchors.length := by
  have aux : ∀ (l : List Anchor) (st : List Str × List Str),
      ((l.foldl (linkStep url bd) st).1).length ≤ st.1.length + l.length := by
    intro l
    induction l with
    | nil => intro st; simp
    | cons a t ih =>
      intro st
      calc ((t.foldl (linkStep url bd) (linkStep url bd st a)).1).length
          ≤ (linkStep url bd st a).1.length + t.length := ih _
      _ ≤ st.1.length + 1 + t.length := by
          have := linkStep_fst_len url bd st a
          omega
      _ = st.1.length + (a :: t).length := by simp [List.length_cons]; omega
  have := aux anchors ([], [])
  simpa [linkClassify] using this

/-- A parse returns at most one page link per anchor of the page. -/
theorem parse_pageLinks_len (d : Doc) (url : Str) :
    (parse_html_for_emails_and_links d url).pageLinks.length ≤
      d.anchors.length := by
  unfold parse_html_for_emails_and_links
  exact linkClassify_fst_len _ _ _

/-- Any document a fetch can return carries at most worldAnchorBound
anchors. -/
theorem fetchPage_anchors_le (w : World) (usePw : Bool) (u : Str) (d : Doc)
    (h : fetchPage w usePw u = some d) :
    d.anchors.length ≤ worldAnchorBound w := by
  have hw : wFetch w u = FetchRes.good d ∨ wFetch w u = FetchRes.bad d := by
    unfold fetchPage requestsGet pwGoto at h
    split at h <;> cases hwf : wFetch w u <;> rw [hwf] at h <;>
      simp at h <;> simp [h]
  clear h
  obtain ⟨pages⟩ := w
  induction pages with
  | nil =>
    rcases hw with hw | hw <;> exact absurd hw (by simp [wFetch, List.lookup])
  | cons p ps ih =>
    obtain ⟨k, r⟩ := p
    by_cases hk : u = k
    · have hred : wFetch ⟨(k, r) :: ps⟩ u = r := by
        simp [wFetch, List.lookup, hk]
      rw [hred] at hw
      rcases hw with hw | hw <;> subst hw <;> exact Nat.le_add_right _ _
    · have hbe : (u == k) = false := beq_eq_false_iff_ne.mpr hk
      have hred : wFetch ⟨(k, r) :: ps⟩ u = wFetch ⟨ps⟩ u := by
        simp [wFetch, List.lookup, hbe]
      rw [hred] at hw
      have htail := ih hw
      have hmono : worldAnchorBound ⟨ps⟩ ≤ worldAnchorBound ⟨(k, r) :: ps⟩ := by
        cases r with
        | good d0 => exact Nat.le_add_left _ _
        | bad d0 => exact Nat.le_add_left _ _
        | down => exact Nat.le_refl _
      omega

/-- The fuel mainFuel computes is never exhausted: each skip costs one
unit and each fetch costs one unit plus at most worldAnchorBound new
queue entries, so the loop always stops by itself. -/
theorem mainLoopF_no_ranOut (w : World) (usePw : Bool) (maxP : Nat)
    (fileX : Str → List Str × List Str) (origNorm : Str) (smMode : Bool) :
    ∀ (fuel : Nat) (st : MainSt),
      st.queue.length + (maxP - st.pages) * (worldAnchorBound w + 1) ≤ fuel →
      st.ranOut = false →
      (mainLoopF w usePw maxP fileX origNorm smMode fuel st).ranOut = false := by
  intro fuel
  induction fuel with
  | zero =>
    intro st hf hro
    have hq : st.queue = [] := by
      cases hql : st.queue with
      | nil => rfl
      | cons a t => rw [hql] at hf; simp at hf
    simp [mainLoopF, hq]
  | succ n ih =>
    intro st hf hro
    cases hq : st.queue with
    | nil => simp [mainLoopF, hq, hro]
    | cons u rest =>
      rw [hq] at hf
      simp only [List.length_cons] at hf
      by_cases hp : st.pages ≥ maxP
      · simp [mainLoopF, hq, hp, hro]
      · have hplt : st.pages < maxP := Nat.lt_of_not_ge hp
        have hsub : maxP - (st.pages + 1) = (maxP - st.pages) - 1 := by omega
        have hone : 1 ≤ maxP - st.pages := by omega
        have hmul : worldAnchorBound w + 1 ≤
            (maxP - st.pages) * (worldAnchorBound w + 1) :=
          le_mul_of_one_le_left (by omega) hone
        have hrw : ((maxP - st.pages) - 1) * (worldAnchorBound w + 1) =
            (maxP - st.pages) * (worldAnchorBound w + 1) -
              (worldAnchorBound w + 1) := Nat.sub_one_mul _ _
        by_cases hvis : u ∈ st.visited
        · simp only [mainLoopF, hq, if_neg hp, if_pos hvis]
          apply ih
          · dsimp only
            omega
          · exact hro
        · by_cases hdom : pyReplace (netlocOf u) (s2l ("www.")) [] ≠ origNorm
          · simp only [mainLoopF, hq, if_neg hp, if_neg hvis, if_pos hdom]
            apply ih
            · dsimp only
              omega
            · exact hro
          · cases hfe : fetchPage w usePw u with
            | none =>
              simp only [mainLoopF, hq, if_neg hp, if_neg hvis, if_neg hdom, hfe]
              apply ih
              · dsimp only
                rw [hsub, hrw]
                omega
              · exact hro
            | some d =>
              simp only [mainLoopF, hq, if_neg hp, if_neg hvis, if_neg hdom, hfe]
              apply ih
              · have hlinks :
                    (parse_html_for_emails_and_links d u).pageLinks.length ≤
                      worldAnchorBound w := by
                  calc (parse_html_for_emails_and_links d u).pageLinks.length ≤
                      d.anchors.length := parse_pageLinks_len d u
                  _ ≤ worldAnchorBound w := fetchPage_anchors_le w usePw u d hfe
                dsimp only
                rw [hsub, hrw]
                split
                · omega
                · have hfil := List.length_filter_le
                    (fun l => decide (l ∉ u :: st.visited))
                    (parse_html_for_emails_and_links d u).pageLinks
                  simp only [List.length_append]
                  omega
              · exact hro

/-- mainLoop never truncates: the loop with the configured fuel always
returns by draining the queue or filling the budget. -/
theorem mainLoop_no_ranOut (w : World) (usePw : Bool) (maxP : Nat)
    (fileX : Str → List Str × List Str) (origNorm : Str) (smMode : Bool)
    (st : MainSt) (h : st.ranOut = false) :
    (mainLoop w usePw maxP fileX origNorm smMode st).ranOut = false :=
  mainLoopF_no_ranOut w usePw maxP fileX origNorm smMode _ st (Nat.le_refl _) h

/-- Inverting a successful scrape: the homepage fetch succeeded and the
output is the crawl's. -/
theorem scrape_ok_iff (w : World) (b : Str) (m : Nat)
    (fileX : Str → List Str × List Str) (out : SWOut) :
    scrape_website w b m fileX = Except.ok out ↔
    ∃ hd, homepageFetch w b (modeDetect w b) = some hd ∧
      out = scrapeCrawl w b m fileX (modeDetect w b) hd := by
  unfold scrape_website
  cases hh : homepageFetch w b (modeDetect w b) <;> simp [hh, eq_comm]

/-- C4: whenever the priority scan contributed at least one record with
a nonempty email, the crawl for the domain ends at the halt check: the
sitemap resolver is never invoked, no sitemap URL is parsed, and the
main (sitemap or general) crawl phase fetches nothing. -/
theorem c4_halt_correctness (w : World) (b : Str) (m : Nat)
    (fileX : Str → List Str × List Str) (out : SWOut)
    (h : scrape_website w b m fileX = Except.ok out)
    (hr : ∃ r ∈ out.priorityRecords, r.email ≠ []) :
    out.sitemapCalled = false ∧ out.sitemapTrace = [] ∧ out.mainTrace = [] ∧
      out.mainRecords = [] := by
  rw [scrape_ok_iff] at h
  obtain ⟨hd, hh, rfl⟩ := h
  simp only [scrapeCrawl] at hr ⊢
  split at hr
  · rename_i hE
    rw [if_pos hE]
    exact ⟨rfl, rfl, rfl, rfl⟩
  · rename_i hE
    exfalso
    obtain ⟨r, hm, hne⟩ := hr
    apply hE
    rw [List.any_eq_true]
    exact ⟨r, List.mem_append.mpr (Or.inr hm), by simpa using hne⟩

/-- What one main-crawl run adds, at the configured fuel. -/
theorem mainLoop_spec (w : World) (usePw : Bool) (maxP : Nat)
    (fileX : Str → List Str × List Str) (origNorm : Str) (smMode : Bool)
    (st : MainSt) : ∃ added : List Str,
      (mainLoop w usePw maxP fileX origNorm smMode st).trace =
        st.trace ++ added ∧
      added.Nodup ∧
      (∀ x ∈ added, x ∉ st.visited) ∧
      (∀ x, x ∈ (mainLoop w usePw maxP fileX origNorm smMode st).visited ↔
        x ∈ added ∨ x ∈ st.visited) ∧
      (mainLoop w usePw maxP fileX origNorm smMode st).pages =
        st.pages + added.length ∧
      (mainLoop w usePw maxP fileX origNorm smMode st).pages ≤
        max st.pages maxP ∧
      (∀ x ∈ added, pyReplace (netlocOf x) (s2l ("www.")) [] = origNorm) :=
  mainLoopF_spec w usePw maxP fileX origNorm smMode (mainFuel w maxP st) st

/-- The crawl's combined fetch behaviour: the priority trace and main
trace are each duplicate-free, mutually disjoint, their total length
respects the page cap, and every main-crawl fetch stays in the
normalized original domain. -/
theorem scrapeCrawl_spec (w : World) (b : Str) (m : Nat)
    (fileX : Str → List Str × List Str) (md : MDOut) (hd : Doc × List Str) :
    ∃ addedP addedM : List Str,
      (scrapeCrawl w b m fileX md hd).priorityTrace = addedP ∧
      (scrapeCrawl w b m fileX md hd).mainTrace = addedM ∧
      addedP.Nodup ∧ addedM.Nodup ∧
      (∀ x ∈ addedM, x ∉ addedP) ∧
      addedP.length + addedM.length ≤ m ∧
      (∀ x ∈ addedM, pyReplace (netlocOf x) (s2l ("www.")) [] =
        pyReplace (netlocOf b) (s2l ("www.")) []) := by
  simp only [scrapeCrawl]
  set pri := sortStr (sinsert b (find_priority_links hd.1 b)) with hpri
  set st0 : PriSt := ⟨[], 0, [], [], (fileRecords fileX [] md.fileLinks).2, []⟩
    with hst0
  set p := priorityLoop w md.usePw m fileX pri st0 with hp
  obtain ⟨aP, h1, h2, h3, h4, h5, h6⟩ :=
    priorityLoop_spec w md.usePw m fileX pri st0
  rw [← hp] at h1 h4 h5 h6
  have htr : p.trace = aP := by simpa [hst0] using h1
  have hvis : ∀ x, x ∈ p.visited ↔ x ∈ aP := by
    intro x
    rw [h4]
    simp [hst0]
  have hpg : p.pages = aP.length := by simpa [hst0] using h5
  have hple : p.pages ≤ m := by
    have := h6
    simp [hst0] at this
    omega
  split
  · exact ⟨aP, [], htr, rfl, h2, by simp, by simp, by simp; omega, by simp⟩
  · set sm := get_sitemap_urls w b with hsm
    set st1 : MainSt :=
      ⟨(if sm.urls ≠ [] then sm.urls else p.links).filter
        (fun x => x ∉ p.visited), p.visited, p.pages, [], p.processed, [], false⟩
      with hst1
    obtain ⟨aM, g1, g2, g3, g4, g5, g6, g7⟩ :=
      mainLoop_spec w md.usePw m fileX (pyReplace (netlocOf b) (s2l ("www.")) [])
        (sm.urls ≠ []) st1
    refine ⟨aP, aM, htr, by simpa [hst1] using g1, h2, g2, ?_, ?_, g7⟩
    · intro x hx
      have := g3 x hx
      rw [hst1] at this
      intro hc
      exact this ((hvis x).mpr hc)
    · have hle := g6
      have hpages := g5
      rw [hst1] at hle hpages
      simp only at hle hpages
      omega

/-- C4 witness: in scenario A the priority scan finds x@a.com on the
homepage and the crawl halts before the sitemap phase. -/
theorem c4_halt_correctness_witness :
    outA.sitemapCalled = false ∧ outA.sitemapTrace = [] ∧ outA.mainTrace = [] ∧
      outA.mainRecords = [] :=
  c4_halt_correctness wA bA 100 fx0 outA (by rfl)
    ⟨Record.mk (s2l ("x@a.com")) [] bA, by decide, by decide⟩

set_option maxRecDepth 40000 in
set_option maxHeartbeats 4000000 in
/-- Evaluating the budget scenario: with the cap at 5, the priority
scan fetches only the homepage, the main crawl fetches four of the
hundred internal pages, and the world indeed holds the homepage, the
sitemap document and one hundred pages. -/
theorem outC_facts :
    scrape_website wC bC 5 fx0 = Except.ok outC ∧
    outC.priorityTrace.length = 1 ∧ outC.mainTrace.length = 4 ∧
    wC.pages.length = 102 := by
  exact ⟨rfl, rfl, rfl, rfl⟩

/-- C3 counterexample: in scenario A the homepage is fetched twice —
once by the mode-detection probe and once by the priority scan — so a
URL is fetched more than once in the same domain crawl. -/
theorem c3_visited_set_counterexample :
    (scrape_website wA bA 100 fx0).map (fun o => o.allFetches.count bA) =
      Except.ok 2 := by
  rfl

/-- C3 as amended: within the priority scan and the main crawl no URL
is fetched twice (the visited set is extended just before each fetch
and checked before it, also at dequeue time — URLs can be enqueued
twice and are skipped when dequeued); but the mode-detection probe
always fetches the homepage one extra time, outside the visited
set. -/
theorem c3_visited_set_amended :
    (∀ (w : World) (b : Str) (m : Nat) (fileX : Str → List Str × List Str)
      (out : SWOut), scrape_website w b m fileX = Except.ok out →
      (out.priorityTrace ++ out.mainTrace).Nodup ∧ out.modeTrace = [b]) ∧
    (scrape_website wA bA 100 fx0).map (fun o => o.allFetches.count bA) =
      Except.ok 2 := by
  constructor
  · intro w b m fileX out h
    rw [scrape_ok_iff] at h
    obtain ⟨hd, hh, rfl⟩ := h
    obtain ⟨aP, aM, e1, e2, n1, n2, dis, _, _⟩ :=
      scrapeCrawl_spec w b m fileX (modeDetect w b) hd
    constructor
    · rw [e1, e2, List.nodup_append]
      exact ⟨n1, n2, fun x hx hx2 => (dis x hx2) hx⟩
    · simp only [scrapeCrawl]
      split <;> rfl
  · rfl

/-- C7 counterexample: with the cap at 5 and a site of one hundred
internal pages with no contact information, the sitemap/general-crawl
phase fetches four pages, not five: the priority scan's single fetch
already consumed one unit of the same budget. -/
theorem c7_budget_counterexample :
    (scrape_website wC bC 5 fx0).map (fun o => o.mainTrace.length) =
      Except.ok 4 ∧ wC.pages.length = 102 := by
  obtain ⟨hrun, _, hm, hw⟩ := outC_facts
  rw [hrun]
  exact ⟨by simp [Except.map, hm], hw⟩

/-- C7 as amended: the page cap bounds the TOTAL of priority-scan plus
main-crawl fetches (the counter is shared between the phases), so the
main phase fetches at most the cap minus the priority fetches; on the
hundred-page site with cap 5 this is exactly 4 after the homepage's
priority fetch. -/
theorem c7_budget_amended :
    (∀ (w : World) (b : Str) (m : Nat) (fileX : Str → List Str × List Str)
      (out : SWOut), scrape_website w b m fileX = Except.ok out →
      out.priorityTrace.length + out.mainTrace.length ≤ m) ∧
    (scrape_website wC bC 5 fx0).map
      (fun o => (o.priorityTrace.length, o.mainTrace.length)) =
      Except.ok (1, 4) := by
  constructor
  · intro w b m fileX out h
    rw [scrape_ok_iff] at h
    obtain ⟨hd, hh, rfl⟩ := h
    obtain ⟨aP, aM, e1, e2, _, _, _, hlen, _⟩ :=
      scrapeCrawl_spec w b m fileX (modeDetect w b) hd
    rw [e1, e2]
    exact hlen
  · obtain ⟨hrun, hp, hm, _⟩ := outC_facts
    rw [hrun]
    simp [Except.map, hp, hm]

/-- C10: the priority scan applies no hostname filter — in scenario D
the cross-domain URL http://other.com/contact is fetched during the
priority scan — while every URL the main (sitemap/general) phase
fetches has the same www.-stripped netloc as the crawl's base URL. -/
theorem c10_hostname_filter_scope :
    ((scrape_website wD bD 100 fx0).map
      (fun o => decide (crossD ∈ o.priorityTrace ∧
        netlocOf crossD ≠ netlocOf bD)) = Except.ok true) ∧
    (∀ (w : World) (b : Str) (m : Nat) (fileX : Str → List Str × List Str)
      (out : SWOut) (u : Str), scrape_website w b m fileX = Except.ok out →
      u ∈ out.mainTrace →
      pyReplace (netlocOf u) (s2l ("www.")) [] =
        pyReplace (netlocOf b) (s2l ("www.")) []) := by
  constructor
  · rfl
  · intro w b m fileX out u h hu
    rw [scrape_ok_iff] at h
    obtain ⟨hd, hh, rfl⟩ := h
    obtain ⟨aP, aM, e1, e2, _, _, _, _, hdom⟩ :=
      scrapeCrawl_spec w b m fileX (modeDetect w b) hd
    rw [e2] at hu
    exact hdom u hu

/-- A homepage fetch escapes as an exception exactly when the homepage
is network-unreachable: with the site down the probe raises, the mode
falls back to Playwright, and the unguarded goto raises again. -/
theorem homepageFetch_none_iff (w : World) (b : Str) :
    homepageFetch w b (modeDetect w b) = none ↔
      wFetch w b = FetchRes.down := by
  cases hwf : wFetch w b with
  | good d =>
    simp only [homepageFetch, modeDetect, requestsGet, pwGoto, hwf]
    split <;> simp
  | bad d =>
    simp only [homepageFetch, modeDetect, requestsGet, pwGoto, hwf]
    simp
  | down =>
    simp only [homepageFetch, modeDetect, requestsGet, pwGoto, hwf]
    simp

/-- C6 counterexample: with the first input domain unreachable the
whole run aborts (runMain raises), although the second domain alone
scrapes successfully — a failure in one domain's crawl prevents the
remaining domains from being processed. -/
theorem c6_error_isolation_counterexample :
    runMain wE [s2l ("e1.com"), s2l ("e2.com")] fx0 = Except.error () ∧
    (scrape_website wE e2url 100 fx0).map
      (fun o => o.data.map (fun r => r.email)) =
      Except.ok [s2l ("z@e2.com")] := by
  exact ⟨rfl, rfl⟩

/-- C6 as amended: every fetch or parse failure inside the priority
scan, the sitemap resolution and the main crawl is caught per URL,
and a failing mode probe is caught too — a scrape escapes with an
exception exactly when the homepage itself is network-unreachable
(the homepage render before priority-link discovery sits in a try
block with no except clause); such an exception aborts the domain AND
every remaining input domain, as main() wraps no try around the
per-domain calls. -/
theorem c6_error_containment_amended :
    (∀ (w : World) (b : Str) (m : Nat) (fileX : Str → List Str × List Str),
      scrape_website w b m fileX = Except.error () ↔
        wFetch w b = FetchRes.down) ∧
    runMain wE [s2l ("e1.com"), s2l ("e2.com")] fx0 = Except.error () := by
  constructor
  · intro w b m fileX
    simp only [scrape_website]
    cases hh : homepageFetch w b (modeDetect w b) with
    | none =>
      constructor
      · intro _
        exact (homepageFetch_none_iff w b).mp hh
      · intro _
        rfl
    | some hd =>
      constructor
      · intro hcontra
        exact absurd hcontra (by simp)
      · intro hdown
        have hnone := (homepageFetch_none_iff w b).mpr hdown
        rw [hh] at hnone
        exact absurd hnone (by simp)
  · rfl

/-- C1 counterexample: in the spec's own scenario — /contact holds a
mailto:info@example.com anchor with text Info Team and no other email
anywhere — the crawl finds nothing (the crawl engine never runs the
contact analyzer and its parser ignores mailto targets), so the final
result is empty and the sitemap phase IS entered. -/
theorem c1_mailto_scenario_counterexample :
    (scrape_website wB bB 100 fx0).map (fun o => (o.data, o.sitemapCalled)) =
      Except.ok ([], true) := by
  rfl

/-- C1 as amended: the contact analyzer alone behaves as the scenario
says — find_general_contacts on the /contact page yields exactly the
one high-confidence candidate pairing info@example.com with Info
Team, for every NER collaborator — but the crawl engine never invokes
it: the crawl of the same site collects no records and proceeds into
the sitemap phase. -/
theorem c1_mailto_scenario_amended :
    (∀ ner : Str → List Person,
      find_general_contacts ner docBc contactB = [infoTeamContact]) ∧
    (scrape_website wB bB 100 fx0).map (fun o => (o.data, o.sitemapCalled)) =
      Except.ok ([], true) := by
  exact ⟨fun ner => rfl, rfl⟩

/-- Membership under name-length insertion. -/
theorem mem_insByLen {x r : AggRow} :
    ∀ {l : List AggRow}, x ∈ insByLen r l ↔ x = r ∨ x ∈ l := by
  intro l
  induction l with
  | nil => simp [insByLen]
  | cons y ys ih =>
    by_cases hc : r.name.length ≥ y.name.length
    · simp [insByLen, hc, List.mem_cons]
    · simp only [insByLen, if_neg hc, List.mem_cons, ih]
      tauto

/-- The name-length sort permutes nothing in or out. -/
theorem mem_sortByNameLen {x : AggRow} :
    ∀ {l : List AggRow}, x ∈ sortByNameLen l ↔ x ∈ l := by
  intro l
  induction l with
  | nil => simp [sortByNameLen]
  | cons y ys ih =>
    show x ∈ insByLen y (sortByNameLen ys) ↔ _
    rw [mem_insByLen]
    simp [ih]

/-- Insertion preserves the descending-by-name-length order. -/
theorem pairwise_insByLen {r : AggRow} :
    ∀ {l : List AggRow},
      l.Pairwise (fun a b => b.name.length ≤ a.name.length) →
      (insByLen r l).Pairwise (fun a b => b.name.length ≤ a.name.length) := by
  intro l
  induction l with
  | nil => simp [insByLen]
  | cons y ys ih =>
    intro h
    obtain ⟨hy, hys⟩ := List.pairwise_cons.mp h
    by_cases hc : r.name.length ≥ y.name.length
    · simp only [insByLen, if_pos hc]
      rw [List.pairwise_cons]
      refine ⟨?_, h⟩
      intro z hz
      rcases List.mem_cons.mp hz with rfl | hz
      · exact hc
      · exact le_trans (hy z hz) hc
    · simp only [insByLen, if_neg hc]
      rw [List.pairwise_cons]
      refine ⟨?_, ih hys⟩
      intro z hz
      rcases mem_insByLen.mp hz with rfl | hz
      · omega
      · exact hy z hz

/-- The sort of the aggregation is descending by name length. -/
theorem sorted_sortByNameLen (l : List AggRow) :
    (sortByNameLen l).Pairwise (fun a b => b.name.length ≤ a.name.length) := by
  induction l with
  | nil => simp [sortByNameLen]
  | cons y ys ih => exact pairwise_insByLen ih

/-- Deduplication only keeps rows of the input. -/
theorem dedup_mem : ∀ (l : List AggRow) (seen : List (Str × Str)) (r : AggRow),
    r ∈ dedupKeyFirst l seen → r ∈ l := by
  intro l
  induction l with
  | nil => intro seen r hr; exact absurd hr (by simp [dedupKeyFirst])
  | cons x rest ih =>
    intro seen r hr
    by_cases hs : (x.website, x.email) ∈ seen
    · simp only [dedupKeyFirst, if_pos hs] at hr
      exact List.mem_cons_of_mem _ (ih _ r hr)
    · simp only [dedupKeyFirst, if_neg hs] at hr
      rcases List.mem_cons.mp hr with rfl | hr
      · exact List.mem_cons_self _ _
      · exact List.mem_cons_of_mem _ (ih _ r hr)

/-- A kept row's key was not seen before. -/
theorem dedup_not_seen :
    ∀ (l : List AggRow) (seen : List (Str × Str)) (r : AggRow),
      r ∈ dedupKeyFirst l seen → (r.website, r.email) ∉ seen := by
  intro l
  induction l with
  | nil => intro seen r hr; exact absurd hr (by simp [dedupKeyFirst])
  | cons x rest ih =>
    intro seen r hr
    by_cases hs : (x.website, x.email) ∈ seen
    · simp only [dedupKeyFirst, if_pos hs] at hr
      exact ih _ r hr
    · simp only [dedupKeyFirst, if_neg hs] at hr
      rcases List.mem_cons.mp hr with rfl | hr
      · exact hs
      · intro hc
        exact (ih _ r hr) (List.mem_cons_of_mem _ hc)

/-- Deduplicated rows carry pairwise distinct (website, email) keys. -/
theorem dedup_pairwise_keys :
    ∀ (l : List AggRow) (seen : List (Str × Str)),
      (dedupKeyFirst l seen).Pairwise
        (fun a b => (a.website, a.email) ≠ (b.website, b.email)) := by
  intro l
  induction l with
  | nil => intro seen; simp [dedupKeyFirst]
  | cons x rest ih =>
    intro seen
    by_cases hs : (x.website, x.email) ∈ seen
    · simp only [dedupKeyFirst, if_pos hs]
      exact ih _
    · simp only [dedupKeyFirst, if_neg hs]
      rw [List.pairwise_cons]
      refine ⟨?_, ih _⟩
      intro b hb hc
      exact (dedup_not_seen rest _ b hb) (by rw [← hc]; exact List.mem_cons_self _ _)

/-- On a descending list, the kept row of each key has maximal name
length among the rows sharing its key. -/
theorem dedup_max :
    ∀ (l : List AggRow) (seen : List (Str × Str)),
      l.Pairwise (fun a b => b.name.length ≤ a.name.length) →
      ∀ r ∈ dedupKeyFirst l seen, ∀ r2 ∈ l,
        r2.website = r.website → r2.email = r.email →
        r2.name.length ≤ r.name.length := by
  intro l
  induction l with
  | nil => intro seen _ r hr; exact absurd hr (by simp [dedupKeyFirst])
  | cons x rest ih =>
    intro seen hsort r hr r2 hr2 hw he
    obtain ⟨hx, hrest⟩ := List.pairwise_cons.mp hsort
    by_cases hs : (x.website, x.email) ∈ seen
    · simp only [dedupKeyFirst, if_pos hs] at hr
      rcases List.mem_cons.mp hr2 with rfl | hr2
      · exfalso
        apply dedup_not_seen rest seen r hr
        rw [show (r.website, r.email) = (r2.website, r2.email) by rw [hw, he]]
        exact hs
      · exact ih seen hrest r hr r2 hr2 hw he
    · simp only [dedupKeyFirst, if_neg hs] at hr
      rcases List.mem_cons.mp hr with rfl | hr
      · rcases List.mem_cons.mp hr2 with rfl | hr2
        · exact Nat.le_refl _
        · exact hx r2 hr2
      · have hne : (r.website, r.email) ≠ (x.website, x.email) := by
          intro hc
          exact (dedup_not_seen rest _ r hr) (by rw [hc]; exact List.mem_cons_self _ _)
        rcases List.mem_cons.mp hr2 with rfl | hr2
        · exfalso
          exact hne (by rw [hw, he])
        · exact ih _ hrest r hr r2 hr2 hw he

/-- C2 counterexample: two rows of the same domain whose emails differ
only in case both survive aggregation — the dedup key is the exact
Found_Email string, not a case-normalized email (and the records
carry no confidence at all). -/
theorem c2_dedup_counterexample :
    aggregate [cexRow1, cexRow2] = [cexRow1, cexRow2] ∧
    pyLower cexRow1.email = pyLower cexRow2.email ∧
    cexRow1.email ≠ cexRow2.email := by
  exact ⟨rfl, rfl, by decide⟩

/-- C2 as amended: aggregation keeps at most one row per exact
case-sensitive (Website, Found_Email) pair; every kept row comes from
the input, and among the input rows sharing its exact key the kept
row has maximal name length (the records carry no confidence
field). -/
theorem c2_dedup_amended (rows : List AggRow) :
    (aggregate rows).Pairwise
      (fun a b => (a.website, a.email) ≠ (b.website, b.email)) ∧
    ∀ r ∈ aggregate rows, r ∈ rows ∧
      ∀ r2 ∈ rows, r2.website = r.website → r2.email = r.email →
        r2.name.length ≤ r.name.length := by
  constructor
  · exact dedup_pairwise_keys _ _
  · intro r hr
    constructor
    · exact mem_sortByNameLen.mp (dedup_mem _ _ _ hr)
    · intro r2 hr2 hw he
      exact dedup_max _ [] (sorted_sortByNameLen rows) r hr r2
        (mem_sortByNameLen.mpr hr2) hw he

end EmailMvp
